import Mathlib

/-!
Verification development for the meta-processing trigger and recovery engine
of the task repository (`src/core/engine.ts`).

The engine is single-threaded cooperative JavaScript: timers and background
analysis continuations never preempt the driver's synchronous sections.  We
embed it as a deterministic state machine over `EngineState`:

* wall-clock time (`Date.now()`) is an explicit `now : Nat` in milliseconds;
* the two debounce `setTimeout` handles become absolute deadlines of type
  `Option Nat`; the periodic `setInterval` becomes a next-fire deadline;
* `uuidv4()` correlation ids become a fresh-id counter `nextEventId`;
* the `asyncEventQueue` (pushed by background continuations, drained FIFO by
  the run loop) becomes an append-only `eventLog`;
* the `pendingAsyncOps` set of in-flight promises becomes a list of `Flight`
  records; the resolution of such a promise (success / error / timeout) is an
  external stimulus, as is the arrival of a new `response_output` message;
* `console.warn` calls from stuck-state recovery are recorded in `warnings`;
* a ghost `flagLog` records every transition of each `processing` flag
  (set-on-launch / cleared-by-finally-or-forced-reset) for the single-flight
  invariant.
-/

namespace TaskEngine

/-- The two analysis kinds supervised by the engine. -/
inductive Kind where
  | memory
  | cognition
deriving DecidableEq, Repr

/-- Resolution of a background analysis promise: the `Promise.race` of the
analysis against the hard timeout either fulfills (success) or rejects with
an analysis error or the timeout error. -/
inductive Outcome where
  | success
  | error
  | timeout
deriving DecidableEq, Repr

/-- A meta event pushed to the async event queue: `tagging_start` /
`analysis_start` (`isStart = true`) or `tagging_complete` /
`analysis_complete` (`isStart = false`), with its correlation `eventId` and
`timestamp: Date.now()`. -/
structure MetaEvent where
  kind : Kind
  isStart : Bool
  eventId : Nat
  timestamp : Nat
deriving DecidableEq, Repr

/-- An in-flight background operation tracked in `pendingAsyncOps`,
identified by the correlation id of its start event. -/
structure Flight where
  kind : Kind
  eventId : Nat
deriving DecidableEq, Repr

/-- Ghost record of a `processing` flag transition: `launch` when a launch
sets the flag, `clear` when the `finally` block or a forced stuck-state
reset clears it. -/
inductive FlagAction where
  | launch (k : Kind)
  | clear (k : Kind)
deriving DecidableEq, Repr

def FlagAction.kind : FlagAction → Kind
  | .launch k => k
  | .clear k => k

def FlagAction.isLaunch : FlagAction → Bool
  | .launch _ => true
  | .clear _ => false

/-- `STUCK_THRESHOLD = 2 * 60 * 1000` ms (2 minutes), engine.ts lines 110,
248, 539, 579. -/
def STUCK_THRESHOLD : Nat := 2 * 60 * 1000

/-- Debounce delay of both debounce timers: `setTimeout(..., 1000)`. -/
def DEBOUNCE_DELAY : Nat := 1000

/-- Memory batch threshold: `unprocessedMemoryMessages.length >= 10`. -/
def BATCH_THRESHOLD : Nat := 10

/-- Periodic cognition `setInterval(..., 180000)` (3 minutes). -/
def COGNITION_PERIODIC_INTERVAL : Nat := 180000

/-- Conversation messages are opaque to the trigger engine; we identify them
by a number. -/
abbrev Msg := Nat

/-- `taskLocalState.memory` fields used by the engine. -/
structure MemoryLocal where
  enabled : Bool
  processing : Bool
  lastProcessingStartTime : Option Nat
deriving DecidableEq, Repr

/-- `taskLocalState.cognition` fields used by the engine. -/
structure CognitionLocal where
  enabled : Bool
  frequency : Nat
  processing : Bool
  lastProcessingStartTime : Option Nat
deriving DecidableEq, Repr

/-- `MetaProcessingState` of engine.ts (lines 43-49). -/
structure MetaProcessingState where
  unprocessedMemoryMessages : List Msg
  unprocessedCognitionMessages : List Msg
  lastMemoryProcessTime : Nat
  lastCognitionProcessTime : Nat
  messagesSinceLastCognition : Nat
deriving DecidableEq, Repr

/-- The whole engine state of one task invocation. -/
structure EngineState where
  now : Nat
  hasMetamemory : Bool
  messages : List Msg
  memory : MemoryLocal
  cognition : CognitionLocal
  meta : MetaProcessingState
  memoryDebounceTimer : Option Nat
  cognitionDebounceTimer : Option Nat
  cognitionPeriodicDeadline : Nat
  eventLog : List MetaEvent
  nextEventId : Nat
  warnings : List Nat
  pendingOps : List Flight
  flagLog : List FlagAction
deriving DecidableEq, Repr

/-- JavaScript `lastProcessingStartTime ? Date.now() - lastProcessingStartTime : 0`:
the ternary tests truthiness, so a stored timestamp of `0` (falsy) yields an
elapsed time of `0`. -/
def jsElapsed (now : Nat) : Option Nat → Nat
  | some t => if t = 0 then 0 else now - t
  | none => 0

/-- Stuck check at the head of `processMetaMemory` (engine.ts lines 109-122).
Returns the possibly reset state and whether the trigger attempt may proceed
(`false` means "still processing within reasonable time", i.e. skip). -/
def stuckCheckMemory (s : EngineState) : EngineState × Bool :=
  if s.memory.processing then
    let processingTime := jsElapsed s.now s.memory.lastProcessingStartTime
    if STUCK_THRESHOLD < processingTime then
      ({ s with
          memory := { s.memory with processing := false, lastProcessingStartTime := none },
          warnings := s.warnings ++ [processingTime],
          flagLog := s.flagLog ++ [FlagAction.clear .memory] }, true)
    else
      (s, false)
  else
    (s, true)

/-- Stuck check at the head of `processMetaCognition` (engine.ts lines 247-260). -/
def stuckCheckCognition (s : EngineState) : EngineState × Bool :=
  if s.cognition.processing then
    let processingTime := jsElapsed s.now s.cognition.lastProcessingStartTime
    if STUCK_THRESHOLD < processingTime then
      ({ s with
          cognition := { s.cognition with processing := false, lastProcessingStartTime := none },
          warnings := s.warnings ++ [processingTime],
          flagLog := s.flagLog ++ [FlagAction.clear .cognition] }, true)
    else
      (s, false)
  else
    (s, true)

/-- The launch section of `processMetaMemory` (engine.ts lines 124-231):
clear the unprocessed queue, record `lastMemoryProcessTime`, push the
`tagging_start` event with a fresh correlation id, set the processing flag
and its start timestamp, and track the in-flight operation. -/
def launchMemory (s : EngineState) : EngineState :=
  { s with
      meta := { s.meta with
        unprocessedMemoryMessages := [],
        lastMemoryProcessTime := s.now },
      eventLog := s.eventLog ++ [⟨Kind.memory, true, s.nextEventId, s.now⟩],
      nextEventId := s.nextEventId + 1,
      memory := { s.memory with
        processing := true,
        lastProcessingStartTime := some s.now },
      pendingOps := s.pendingOps ++ [⟨Kind.memory, s.nextEventId⟩],
      flagLog := s.flagLog ++ [FlagAction.launch .memory] }

/-- The launch section of `processMetaCognition` (engine.ts lines 262-353). -/
def launchCognition (s : EngineState) : EngineState :=
  { s with
      meta := { s.meta with
        unprocessedCognitionMessages := [],
        lastCognitionProcessTime := s.now },
      eventLog := s.eventLog ++ [⟨Kind.cognition, true, s.nextEventId, s.now⟩],
      nextEventId := s.nextEventId + 1,
      cognition := { s.cognition with
        processing := true,
        lastProcessingStartTime := some s.now },
      pendingOps := s.pendingOps ++ [⟨Kind.cognition, s.nextEventId⟩],
      flagLog := s.flagLog ++ [FlagAction.launch .cognition] }

/-- `processMetaMemory` (engine.ts lines 95-231), the synchronous prefix up
to and including the launch.  Early return when metamemory is absent or
disabled; stuck check; skip when still processing; skip when the
unprocessed queue is empty; otherwise launch. -/
def processMetaMemory (s : EngineState) : EngineState :=
  if !s.hasMetamemory || !s.memory.enabled then s
  else
    match stuckCheckMemory s with
    | (s1, proceed) =>
      if !proceed then s1
      else if s1.meta.unprocessedMemoryMessages.isEmpty then s1
      else launchMemory s1

/-- `processMetaCognition` (engine.ts lines 236-353), the synchronous prefix
up to and including the launch.  Note: unlike the memory path, the function
body itself has no enabled-guard; callers guard on `cognition.enabled`. -/
def processMetaCognition (s : EngineState) : EngineState :=
  match stuckCheckCognition s with
  | (s1, proceed) =>
    if !proceed then s1
    else if s1.meta.unprocessedCognitionMessages.isEmpty then s1
    else launchCognition s1

/-- The continuation chain of the memory background operation
(`.then ... .catch ... .finally`, engine.ts lines 182-227): on success push
the `tagging_complete` event carrying the start's correlation id; on error
or timeout push nothing; in every case the `finally` block clears
`processing` and `lastProcessingStartTime` and removes the operation from
`pendingAsyncOps`.  The continuation exists (and runs exactly once) only
for a launched, still-pending operation, hence the guard. -/
def finishMemory (eid : Nat) (o : Outcome) (s : EngineState) : EngineState :=
  if (⟨Kind.memory, eid⟩ : Flight) ∈ s.pendingOps then
    let s1 : EngineState :=
      match o with
      | .success => { s with eventLog := s.eventLog ++ [⟨Kind.memory, false, eid, s.now⟩] }
      | _ => s
    { s1 with
        memory := { s1.memory with processing := false, lastProcessingStartTime := none },
        pendingOps := s1.pendingOps.filter (fun f => decide (f ≠ Flight.mk Kind.memory eid)),
        flagLog := s1.flagLog ++ [FlagAction.clear .memory] }
  else s

/-- The continuation chain of the cognition background operation
(engine.ts lines 315-349). -/
def finishCognition (eid : Nat) (o : Outcome) (s : EngineState) : EngineState :=
  if (⟨Kind.cognition, eid⟩ : Flight) ∈ s.pendingOps then
    let s1 : EngineState :=
      match o with
      | .success => { s with eventLog := s.eventLog ++ [⟨Kind.cognition, false, eid, s.now⟩] }
      | _ => s
    { s1 with
        cognition := { s1.cognition with processing := false, lastProcessingStartTime := none },
        pendingOps := s1.pendingOps.filter (fun f => decide (f ≠ Flight.mk Kind.cognition eid)),
        flagLog := s1.flagLog ++ [FlagAction.clear .cognition] }
  else s

/-- `bumpMetaMemoryTimer` (engine.ts lines 632-655): clear and re-arm the
1-second debounce timer; if the unprocessed queue has reached the batch
threshold, cancel the timer and call `processMetaMemory` immediately. -/
def bumpMetaMemoryTimer (s : EngineState) : EngineState :=
  let s1 := { s with memoryDebounceTimer := some (s.now + DEBOUNCE_DELAY) }
  if BATCH_THRESHOLD ≤ s1.meta.unprocessedMemoryMessages.length then
    processMetaMemory { s1 with memoryDebounceTimer := none }
  else s1

/-- `bumpMetaCognitionTimer` (engine.ts lines 658-685): skip when cognition
is disabled; increment `messagesSinceLastCognition`; when the counter
reaches `frequency || 10`, reset the counter to zero immediately and re-arm
the 1-second cognition debounce timer. -/
def bumpMetaCognitionTimer (s : EngineState) : EngineState :=
  if !s.cognition.enabled then s
  else
    let c := s.meta.messagesSinceLastCognition + 1
    let s1 := { s with meta := { s.meta with messagesSinceLastCognition := c } }
    if (if s1.cognition.frequency = 0 then 10 else s1.cognition.frequency) ≤ c then
      { s1 with
          meta := { s1.meta with messagesSinceLastCognition := 0 },
          cognitionDebounceTimer := some (s1.now + DEBOUNCE_DELAY) }
    else s1

/-- The `response_output` handler of the run loop (engine.ts lines 783-803):
append the message to the history and to both unprocessed queues, then bump
the memory timer (when metamemory is active) and the cognition timer (when
cognition is enabled). -/
def onMessage (m : Msg) (s : EngineState) : EngineState :=
  let s1 := { s with
      messages := s.messages ++ [m],
      meta := { s.meta with
        unprocessedMemoryMessages := s.meta.unprocessedMemoryMessages ++ [m],
        unprocessedCognitionMessages := s.meta.unprocessedCognitionMessages ++ [m] } }
  let s2 := if s1.hasMetamemory && s1.memory.enabled then bumpMetaMemoryTimer s1 else s1
  if s2.cognition.enabled then bumpMetaCognitionTimer s2 else s2

/-- Firing of the periodic cognition interval (engine.ts lines 689-693):
attempt `processMetaCognition` when the history is non-empty and cognition
is enabled; the interval re-arms itself. -/
def firePeriodic (s : EngineState) : EngineState :=
  let s1 := { s with cognitionPeriodicDeadline := s.cognitionPeriodicDeadline + COGNITION_PERIODIC_INTERVAL }
  if !s1.messages.isEmpty && s1.cognition.enabled then processMetaCognition s1 else s1

/-- Which timer fires: the memory debounce `setTimeout`, the cognition
debounce `setTimeout`, or the periodic cognition `setInterval`. -/
inductive FireKind where
  | memDeb
  | cogDeb
  | periodic
deriving DecidableEq, Repr

/-- Insert a fire entry into a deadline-sorted list, keeping it sorted
(entries with equal deadlines keep earlier-inserted ones first, matching
FIFO ordering of the JavaScript timer queue). -/
def insertByTime (x : Nat × FireKind) : List (Nat × FireKind) → List (Nat × FireKind)
  | [] => [x]
  | y :: ys => if x.1 < y.1 then x :: y :: ys else y :: insertByTime x ys

/-- All timer firings due up to (and including) time `t`: at most one armed
memory debounce, at most one armed cognition debounce, and every periodic
tick with deadline at most `t`, sorted by deadline.  Firing a timer never
arms another timer (only message arrivals do), so the due set can be
computed up front. -/
def dueList (s : EngineState) (t : Nat) : List (Nat × FireKind) :=
  let periodicCount :=
    if s.cognitionPeriodicDeadline ≤ t then
      (t - s.cognitionPeriodicDeadline) / COGNITION_PERIODIC_INTERVAL + 1
    else 0
  let base := (List.range periodicCount).map
    (fun i => (s.cognitionPeriodicDeadline + i * COGNITION_PERIODIC_INTERVAL, FireKind.periodic))
  let base1 :=
    match s.cognitionDebounceTimer with
    | some d => if d ≤ t then insertByTime (d, FireKind.cogDeb) base else base
    | none => base
  match s.memoryDebounceTimer with
  | some d => if d ≤ t then insertByTime (d, FireKind.memDeb) base1 else base1
  | none => base1

/-- Fire one due timer at its deadline `d`.  A debounce timer fires only if
it is still armed with that exact deadline (it cannot have been re-armed by
another fire, but the guard keeps the function faithful to one-shot
`setTimeout` semantics).  `Date.now()` never moves backwards, so the clock
advances to `max s.now d`. -/
def applyFire (s : EngineState) : Nat × FireKind → EngineState
  | (d, .memDeb) =>
    if s.memoryDebounceTimer = some d then
      processMetaMemory { s with now := max s.now d, memoryDebounceTimer := none }
    else s
  | (d, .cogDeb) =>
    if s.cognitionDebounceTimer = some d then
      processMetaCognition { s with now := max s.now d, cognitionDebounceTimer := none }
    else s
  | (d, .periodic) => firePeriodic { s with now := max s.now d }

/-- Advance wall-clock time to `t`, firing every due timer at its deadline
in deadline order. -/
def advanceTo (s : EngineState) (t : Nat) : EngineState :=
  let s1 := (dueList s t).foldl applyFire s
  { s1 with now := max s1.now t }

/-- External stimuli driving the engine: a new `response_output` message
from the model request service, or the resolution of an in-flight
background operation (identified by its correlation id). -/
inductive Stimulus where
  | message (m : Msg)
  | memFinish (eid : Nat) (o : Outcome)
  | cogFinish (eid : Nat) (o : Outcome)
deriving DecidableEq, Repr

/-- Process one timed stimulus: fire all timers due before it, then apply
the stimulus at its time. -/
def stepStimulus (s : EngineState) : Nat × Stimulus → EngineState
  | (t, stim) =>
    let s1 := advanceTo s t
    match stim with
    | .message m => onMessage m s1
    | .memFinish eid o => finishMemory eid o s1
    | .cogFinish eid o => finishCognition eid o s1

/-- Run the engine over a timed stimulus trace. -/
def runTrace (s : EngineState) (tr : List (Nat × Stimulus)) : EngineState :=
  tr.foldl stepStimulus s

/-- Run a trace and then let time pass to `horizon`, firing remaining
timers. -/
def runTraceTo (s : EngineState) (tr : List (Nat × Stimulus)) (horizon : Nat) : EngineState :=
  advanceTo (runTrace s tr) horizon

/-! ## Task initialization and resume (engine.ts lines 379-403, 442-630)

The serialized task-state snapshot is plain JSON: JavaScript `Map`s appear
as plain objects (association lists after `Object.fromEntries`), `Set`s as
arrays, and the abort controller is absent.  `runTask` may also be handed a
live state whose collections are still native, hence the `instanceof Map` /
`Array.isArray` branches.  Map and set values are opaque; we use `Nat`. -/

/-- A value that is either a native `Map` or a plain enumerable object,
both carrying key/value entries. -/
inductive MapOrObj where
  | nativeMap (entries : List (String × Nat))
  | plainObj (entries : List (String × Nat))
deriving DecidableEq, Repr

/-- A value that is either a native `Set` or a plain array. -/
inductive SetOrArray where
  | nativeSet (elems : List String)
  | array (elems : List String)
deriving DecidableEq, Repr

/-- `taskLocalState.memory.state` as it may arrive in a snapshot. -/
structure MemoryStateIn where
  topicTags : Option MapOrObj
  taggedMessages : Option MapOrObj
  topicCompaction : Option MapOrObj
  lastProcessedIndex : Option Nat
deriving DecidableEq, Repr

/-- `taskLocalState.memory.state` after reconstruction: all maps native. -/
structure MemoryStateNative where
  topicTags : List (String × Nat)
  taggedMessages : List (String × Nat)
  topicCompaction : Option (List (String × Nat))
  lastProcessedIndex : Nat
deriving DecidableEq, Repr

/-- Incoming `taskLocalState.cognition`. -/
structure CognitionIn where
  enabled : Option Bool
  frequency : Option Nat
  thoughtDelay : Option Nat
  processing : Option Bool
  lastProcessingStartTime : Option Nat
  disabledModels : Option SetOrArray
  modelScores : Option (List (String × Nat))
deriving DecidableEq, Repr

/-- Incoming `taskLocalState.memory`. -/
structure MemoryIn where
  enabled : Option Bool
  processing : Option Bool
  lastProcessingStartTime : Option Nat
  state : Option MemoryStateIn
deriving DecidableEq, Repr

/-- Incoming `taskLocalState` (snapshot or live).  The
`delayAbortController` field models a ghost identifier of whatever
controller object the snapshot might carry. -/
structure TaskLocalStateIn where
  requestCount : Option Nat
  runIndefinitely : Bool
  cognition : Option CognitionIn
  memory : Option MemoryIn
  delayAbortController : Option Nat
deriving DecidableEq, Repr

/-- `taskLocalState.cognition` after initialization. -/
structure CognitionRun where
  enabled : Bool
  frequency : Nat
  thoughtDelay : Nat
  processing : Bool
  lastProcessingStartTime : Option Nat
  disabledModels : List String
  modelScores : List (String × Nat)
deriving DecidableEq, Repr

/-- `taskLocalState.memory` after initialization. -/
structure MemoryRun where
  enabled : Bool
  processing : Bool
  lastProcessingStartTime : Option Nat
  state : MemoryStateNative
deriving DecidableEq, Repr

/-- `taskLocalState` after initialization, together with the stuck-state
warnings recorded during the proactive resume-time recovery pass. -/
structure TaskLocalStateRun where
  requestCount : Nat
  runIndefinitely : Bool
  cognition : CognitionRun
  memory : MemoryRun
  delayAbortController : Nat
  warnings : List Nat
deriving DecidableEq, Repr

/-- `new Set(iterable)`: deduplicate keeping first occurrences (JavaScript
`Set` insertion order). -/
def jsSetOfList (l : List String) : List String :=
  l.foldl (fun acc x => if x ∈ acc then acc else acc ++ [x]) []

/-- Reconstruction of `cognition.disabledModels` (engine.ts lines 530-534):
`new Set(Array.isArray(v) ? v : v)` when present, `new Set()` otherwise. -/
def reconstructDisabledModels : Option SetOrArray → List String
  | some (.array l) => jsSetOfList l
  | some (.nativeSet l) => l
  | none => []

/-- `instanceof Map ? v : new Map(Object.entries(v || \x7b\x7d))` for one
map-valued field (engine.ts lines 556-561). -/
def reconstructMap : Option MapOrObj → List (String × Nat)
  | some (.nativeMap e) => e
  | some (.plainObj e) => e
  | none => []

/-- Reconstruction of `memory.state` (engine.ts lines 553-575): when a
state is present, coerce each field back to a native `Map`; otherwise start
from fresh empty maps. -/
def reconstructMemoryState : Option MemoryStateIn → MemoryStateNative
  | some st =>
    { topicTags := reconstructMap st.topicTags,
      taggedMessages := reconstructMap st.taggedMessages,
      lastProcessedIndex := st.lastProcessedIndex.getD 0,
      topicCompaction :=
        match st.topicCompaction with
        | some (.nativeMap e) => some e
        | some (.plainObj e) => some e
        | none => none }
  | none => { topicTags := [], taggedMessages := [], topicCompaction := none, lastProcessedIndex := 0 }

/-- JavaScript truthiness of an optional numeric timestamp: present and
non-zero. -/
def jsTruthyTime : Option Nat → Bool
  | some t => t ≠ 0
  | none => false

/-- The initialization section of `taskGenerator` (engine.ts lines 520-587):
defaults, native-collection reconstruction, a freshly created
`AbortController` on every invocation, and the proactive stuck-state
recovery pass over both analysis kinds, all before any trigger can run.
`defaultThoughtDelay` stands for `getThoughtDelay()`. -/
def runTaskInit (inp : Option TaskLocalStateIn) (now : Nat)
    (freshAbortController : Nat) (defaultThoughtDelay : Nat) : TaskLocalStateRun :=
  let tls := inp.getD ⟨none, false, none, none, none⟩
  let cogIn := tls.cognition.getD ⟨none, none, none, none, none, none, none⟩
  let cog0 : CognitionRun :=
    { enabled := cogIn.enabled.getD true,
      frequency := match cogIn.frequency with
        | some 0 => 10
        | some n => n
        | none => 10,
      thoughtDelay := match cogIn.thoughtDelay with
        | some 0 => defaultThoughtDelay
        | some n => n
        | none => defaultThoughtDelay,
      processing := cogIn.processing.getD false,
      lastProcessingStartTime := cogIn.lastProcessingStartTime,
      disabledModels := reconstructDisabledModels cogIn.disabledModels,
      modelScores := cogIn.modelScores.getD [] }
  let cogStuck :=
    cog0.processing && jsTruthyTime cog0.lastProcessingStartTime &&
      decide (STUCK_THRESHOLD < now - (cog0.lastProcessingStartTime.getD 0))
  let cog : CognitionRun :=
    if cogStuck then
      { cog0 with processing := false, lastProcessingStartTime := none }
    else cog0
  let warnings0 : List Nat :=
    if cogStuck then [now - (cog0.lastProcessingStartTime.getD 0)] else []
  let memIn := tls.memory.getD ⟨none, none, none, none⟩
  let mem0 : MemoryRun :=
    { enabled := memIn.enabled.getD true,
      processing := memIn.processing.getD false,
      lastProcessingStartTime := memIn.lastProcessingStartTime,
      state := reconstructMemoryState memIn.state }
  let memStuck :=
    mem0.processing && jsTruthyTime mem0.lastProcessingStartTime &&
      decide (STUCK_THRESHOLD < now - (mem0.lastProcessingStartTime.getD 0))
  let mem : MemoryRun :=
    if memStuck then
      { mem0 with processing := false, lastProcessingStartTime := none }
    else mem0
  let warnings1 :=
    if memStuck then warnings0 ++ [now - (mem0.lastProcessingStartTime.getD 0)] else warnings0
  { requestCount := tls.requestCount.getD 0,
    runIndefinitely := tls.runIndefinitely,
    cognition := cog,
    memory := mem,
    delayAbortController := freshAbortController,
    warnings := warnings1 }

/-- The engine state at the instant the trigger machinery of
`taskGenerator` is set up (engine.ts lines 605-693), built from the
initialized task-local state: empty unprocessed queues, zero message
counter, no debounce timers armed, first periodic tick one interval away,
and `metamemory` constructed exactly when memory is enabled. -/
def initEngineState (r : TaskLocalStateRun) (messages0 : List Msg) (t0 : Nat) : EngineState :=
  { now := t0,
    hasMetamemory := r.memory.enabled,
    messages := messages0,
    memory := { enabled := r.memory.enabled,
                processing := r.memory.processing,
                lastProcessingStartTime := r.memory.lastProcessingStartTime },
    cognition := { enabled := r.cognition.enabled,
                   frequency := r.cognition.frequency,
                   processing := r.cognition.processing,
                   lastProcessingStartTime := r.cognition.lastProcessingStartTime },
    meta := { unprocessedMemoryMessages := [],
              unprocessedCognitionMessages := [],
              lastMemoryProcessTime := t0,
              lastCognitionProcessTime := t0,
              messagesSinceLastCognition := 0 },
    memoryDebounceTimer := none,
    cognitionDebounceTimer := none,
    cognitionPeriodicDeadline := t0 + COGNITION_PERIODIC_INTERVAL,
    eventLog := [],
    nextEventId := 0,
    warnings := [],
    pendingOps := [],
    flagLog := [] }

/-! ## Conversation-history installation (engine.ts lines 455-463, 379-403) -/

/-- A conversation entry as `runTask` builds it. -/
structure ChatMsg where
  role : String
  content : String
deriving DecidableEq, Repr

/-- The history constructed at the top of `runTask`:
`taskLocalState?.messages ? [...taskLocalState.messages] : [\x7b user content \x7d]`.
The ternary tests truthiness of the array; an array — even an empty one —
is truthy in JavaScript, so the `content` argument is installed only when
the field is absent. -/
def runTaskMessages (content : String) (stateMessages : Option (List ChatMsg)) : List ChatMsg :=
  match stateMessages with
  | some ms => ms
  | none => [{ role := "user", content := content }]

/-- `resumeTask` (engine.ts lines 379-403): default the history to `[]`,
append the new user message when non-empty new content is given (updating
`finalState.messages`), and delegate to `runTask` with placeholder content;
without new content, delegate with the untouched `finalState`. -/
def resumeTaskMessages (finalStateMessages : Option (List ChatMsg))
    (newContent : Option String) : List ChatMsg :=
  let messages := finalStateMessages.getD []
  match newContent with
  | some c =>
    if c ≠ "" then
      runTaskMessages "Resume task" (some (messages ++ [{ role := "user", content := c }]))
    else
      runTaskMessages "Continue with the task" finalStateMessages
  | none => runTaskMessages "Continue with the task" finalStateMessages

/-! ## Generator lifecycle and cleanup (engine.ts lines 695-893) -/

/-- Task lifecycle events yielded by `taskGenerator` itself (model events;
provider stream events other than `error` are irrelevant here). -/
inductive GenEvent where
  | taskStart
  | taskComplete (result : String)
  | taskFatalError (result : String)
  | errorEvent (msg : String)
deriving DecidableEq, Repr

/-- How one run of the generator body ends:
`completed r` — the loop saw a `task_complete` tool call with result `r`;
`completedFatal r` — the loop saw a `task_fatal_error` tool call;
`errored m` — an exception with message `m` escaped the loop into `catch`;
`abandoned` — the consumer tore the generator down early, running only the
`finally` block; `abandonedBeforeStart` — the consumer dropped the
generator before its body ever ran. -/
inductive RunOutcome where
  | completed (result : String)
  | completedFatal (result : String)
  | errored (msg : String)
  | abandoned
  | abandonedBeforeStart
deriving DecidableEq, Repr

/-- The lifecycle events of one `taskGenerator` run (engine.ts lines
695-893), tracking the `taskStartEmitted` / `taskCompleted` flags through
the `try` body and the `catch` block (lines 836-859), paired with the
events of the `finally` block (lines 860-893), which synthesizes the
generic terminal event exactly when a start event was emitted but no
completion event was. -/
def generatorRunParts (runIndefinitely : Bool) (o : RunOutcome) : List GenEvent × List GenEvent :=
  match o with
  | .abandonedBeforeStart => ([], [])
  | _ =>
    let taskStartEmitted := !runIndefinitely
    let startEvents : List GenEvent := if runIndefinitely then [] else [.taskStart]
    let bodyEvents : List GenEvent :=
      match o with
      | .completed r => if runIndefinitely then [] else [.taskComplete r]
      | .completedFatal r => if runIndefinitely then [] else [.taskFatalError r]
      | _ => []
    let taskCompleted : Bool :=
      match o with
      | .completed _ => !runIndefinitely
      | .completedFatal _ => !runIndefinitely
      | _ => false
    let catchEvents : List GenEvent :=
      match o with
      | .errored m =>
        if taskStartEmitted && !taskCompleted && !runIndefinitely then
          [.taskFatalError ("Task failed with error: " ++ m),
           .errorEvent ("Agent execution failed: " ++ m)]
        else
          [.errorEvent ("Agent execution failed: " ++ m)]
      | _ => []
    let taskCompleted1 : Bool :=
      match o with
      | .errored _ => taskCompleted || (taskStartEmitted && !taskCompleted && !runIndefinitely)
      | _ => taskCompleted
    let finallyEvents : List GenEvent :=
      if taskStartEmitted && !taskCompleted1 && !runIndefinitely then
        [.taskFatalError "Task ended without explicit completion"]
      else []
    (startEvents ++ bodyEvents ++ catchEvents, finallyEvents)

/-- The full event stream of one `taskGenerator` run: events of the body
and `catch`, then the cleanup events of `finally`. -/
def generatorRun (runIndefinitely : Bool) (o : RunOutcome) : List GenEvent :=
  (generatorRunParts runIndefinitely o).1 ++ (generatorRunParts runIndefinitely o).2

/-- `task_complete` or `task_fatal_error`: the terminal events whose
emission sets `taskCompleted`. -/
def isCompletionEvent : GenEvent → Bool
  | .taskComplete _ => true
  | .taskFatalError _ => true
  | _ => false

/-- The terminal event the cleanup path synthesizes. -/
def genericFatalEvent : GenEvent :=
  .taskFatalError "Task ended without explicit completion"

/-! ## Observations over the event log -/

/-- The `AnalysisStart` events of kind `k`, in queue (FIFO) order. -/
def startEventsOf (k : Kind) (log : List MetaEvent) : List MetaEvent :=
  log.filter (fun e => e.isStart && decide (e.kind = k))

/-- The `AnalysisComplete` events of kind `k`, in queue (FIFO) order. -/
def completeEventsOf (k : Kind) (log : List MetaEvent) : List MetaEvent :=
  log.filter (fun e => !e.isStart && decide (e.kind = k))

/-- The flag-transition history of kind `k`, as launch (`true`) / clear
(`false`) bits. -/
def flagHistory (k : Kind) (log : List FlagAction) : List Bool :=
  (log.filter (fun a => decide (a.kind = k))).map FlagAction.isLaunch

/-- No two launches of the flag without an intervening clear. -/
def LaunchesSeparated (l : List Bool) : Prop :=
  List.Chain' (fun a b => a = false ∨ b = false) l

/-- Start/complete correlation checked left to right: every complete event
must match a start event seen earlier in the log (same id, same kind).
`seen` accumulates the (id, kind) pairs of starts already passed. -/
def completesMatched (seen : List (Nat × Kind)) : List MetaEvent → Bool
  | [] => true
  | e :: rest =>
    if e.isStart then completesMatched ((e.eventId, e.kind) :: seen) rest
    else decide ((e.eventId, e.kind) ∈ seen) && completesMatched seen rest

/-- The (id, kind) pairs of start events in `log`, prepended to `seen`. -/
def startsSeen (seen : List (Nat × Kind)) : List MetaEvent → List (Nat × Kind)
  | [] => seen
  | e :: rest => if e.isStart then startsSeen ((e.eventId, e.kind) :: seen) rest else startsSeen seen rest

/-! ## Concrete scenarios -/

/-- Cognition-only task configuration: frequency 5, memory disabled. -/
def cogFiveStateIn : TaskLocalStateIn :=
  { requestCount := none,
    runIndefinitely := false,
    cognition := some
      { enabled := some true, frequency := some 5, thoughtDelay := none,
        processing := none, lastProcessingStartTime := none,
        disabledModels := none, modelScores := none },
    memory := some
      { enabled := some false, processing := none,
        lastProcessingStartTime := none, state := none },
    delayAbortController := none }

/-- Engine state for the cognition frequency-5 scenario. -/
def cogFiveEngine : EngineState :=
  initEngineState (runTaskInit (some cogFiveStateIn) 0 0 0) [0] 0

/-- Twelve sequential single-message model responses, 2 seconds apart, the
first in-flight cognition analysis succeeding at 13 s. -/
def cogFiveTrace : List (Nat × Stimulus) :=
  [(0, .message 1), (2000, .message 2), (4000, .message 3), (6000, .message 4),
   (8000, .message 5), (10000, .message 6), (12000, .message 7),
   (13000, .cogFinish 0 .success),
   (14000, .message 8), (16000, .message 9), (18000, .message 10),
   (20000, .message 11), (22000, .message 12)]

/-- Final state of the cognition frequency-5 scenario, observed at 30 s. -/
def cogFiveFinal : EngineState :=
  runTraceTo cogFiveEngine cogFiveTrace 30000

/-- Memory-only task configuration: cognition disabled. -/
def memOnlyStateIn : TaskLocalStateIn :=
  { requestCount := none,
    runIndefinitely := false,
    cognition := some
      { enabled := some false, frequency := none, thoughtDelay := none,
        processing := none, lastProcessingStartTime := none,
        disabledModels := none, modelScores := none },
    memory := some
      { enabled := some true, processing := none,
        lastProcessingStartTime := none, state := none },
    delayAbortController := none }

/-- Engine state for the memory scenarios. -/
def memOnlyEngine : EngineState :=
  initEngineState (runTaskInit (some memOnlyStateIn) 0 0 0) [0] 0

/-- A burst of five messages, 300 ms apart — fewer than the batch
threshold. -/
def memBurstTrace : List (Nat × Stimulus) :=
  [(500, .message 1), (800, .message 2), (1100, .message 3),
   (1400, .message 4), (1700, .message 5)]

/-- Final state of the burst scenario, observed at 5 s. -/
def memBurstFinal : EngineState :=
  runTraceTo memOnlyEngine memBurstTrace 5000

/-- Twenty messages one millisecond apart: the queue reaches the batch
threshold at the 10th message (launch) and again at the 20th while the
first analysis is still in flight. -/
def memTwentyTrace : List (Nat × Stimulus) :=
  (List.range 20).map (fun i => (i + 1, Stimulus.message (i + 1)))

/-- Final state of the twenty-message scenario, observed at 2 s. -/
def memTwentyFinal : EngineState :=
  runTraceTo memOnlyEngine memTwentyTrace 2000

/-! ## Basic lemmas about the trigger helpers -/

theorem bumpMetaCognitionTimer_eventLog (s : EngineState) :
    (bumpMetaCognitionTimer s).eventLog = s.eventLog := by
  simp only [bumpMetaCognitionTimer]
  split <;> (try split) <;> (try split) <;> rfl

theorem bumpMetaCognitionTimer_memoryDebounceTimer (s : EngineState) :
    (bumpMetaCognitionTimer s).memoryDebounceTimer = s.memoryDebounceTimer := by
  simp only [bumpMetaCognitionTimer]
  split <;> (try split) <;> (try split) <;> rfl

/-- The counter is reset at trigger time: when the incremented counter
reaches the effective frequency (`frequency || 10`), `bumpMetaCognitionTimer`
zeroes it on the spot and arms the cognition debounce timer. -/
theorem bumpMetaCognitionTimer_trigger (s : EngineState)
    (hen : s.cognition.enabled = true)
    (hfreq : (if s.cognition.frequency = 0 then 10 else s.cognition.frequency) ≤
      s.meta.messagesSinceLastCognition + 1) :
    (bumpMetaCognitionTimer s).meta.messagesSinceLastCognition = 0 ∧
    (bumpMetaCognitionTimer s).cognitionDebounceTimer = some (s.now + DEBOUNCE_DELAY) := by
  simp only [bumpMetaCognitionTimer, hen, Bool.not_true, Bool.false_eq_true, if_false]
  rw [if_pos hfreq]
  exact ⟨rfl, rfl⟩

/-- Below the frequency threshold, the bump only increments the counter;
the cognition debounce timer is left untouched. -/
theorem bumpMetaCognitionTimer_below (s : EngineState)
    (hen : s.cognition.enabled = true)
    (hfreq : s.meta.messagesSinceLastCognition + 1 <
      (if s.cognition.frequency = 0 then 10 else s.cognition.frequency)) :
    (bumpMetaCognitionTimer s).meta.messagesSinceLastCognition =
      s.meta.messagesSinceLastCognition + 1 ∧
    (bumpMetaCognitionTimer s).cognitionDebounceTimer = s.cognitionDebounceTimer := by
  simp only [bumpMetaCognitionTimer, hen, Bool.not_true, Bool.false_eq_true, if_false]
  rw [if_neg (not_le.mpr hfreq)]
  exact ⟨rfl, rfl⟩

theorem stuckCheckCognition_counter (s : EngineState) :
    ((stuckCheckCognition s).1).meta.messagesSinceLastCognition =
      s.meta.messagesSinceLastCognition := by
  simp only [stuckCheckCognition]
  split
  · split <;> rfl
  · rfl

/-- Neither the launch of a cognition analysis nor any part of
`processMetaCognition` touches `messagesSinceLastCognition`: the counter is
reset only at trigger time, in `bumpMetaCognitionTimer`. -/
theorem processMetaCognition_counter (s : EngineState) :
    (processMetaCognition s).meta.messagesSinceLastCognition =
      s.meta.messagesSinceLastCognition := by
  have h := stuckCheckCognition_counter s
  rcases hsc : stuckCheckCognition s with ⟨s1, proceed⟩
  rw [hsc] at h
  simp only [processMetaCognition, hsc]
  split
  · exact h
  · split
    · exact h
    · simpa [launchCognition] using h

/-- Completion of a cognition analysis never touches the counter either. -/
theorem finishCognition_counter (eid : Nat) (o : Outcome) (s : EngineState) :
    (finishCognition eid o s).meta.messagesSinceLastCognition =
      s.meta.messagesSinceLastCognition := by
  simp only [finishCognition]
  split
  · cases o <;> rfl
  · rfl

/-- A message that leaves the unprocessed-memory queue below the batch
threshold only cancels and restarts the memory debounce timer. -/
theorem bumpMetaMemoryTimer_below (s : EngineState)
    (h : s.meta.unprocessedMemoryMessages.length < BATCH_THRESHOLD) :
    bumpMetaMemoryTimer s = { s with memoryDebounceTimer := some (s.now + DEBOUNCE_DELAY) } := by
  simp only [bumpMetaMemoryTimer]
  rw [if_neg (not_le.mpr h)]

/-- When the single-flight gate passes (metamemory active, not processing)
and the queue is non-empty, `processMetaMemory` launches. -/
theorem processMetaMemory_launch (s : EngineState)
    (hm : s.hasMetamemory = true) (he : s.memory.enabled = true)
    (hp : s.memory.processing = false)
    (hq : s.meta.unprocessedMemoryMessages ≠ []) :
    processMetaMemory s = launchMemory s := by
  simp only [processMetaMemory, stuckCheckMemory, hm, he, hp, Bool.not_true, Bool.false_or,
    Bool.false_eq_true, if_false, Bool.not_false, Bool.true_eq_false, if_true,
    List.isEmpty_eq_true, hq]

/-! ## Claim theorems: trigger policies -/

/-- The engine state just before the fifth message of the frequency-5
scenario: four messages seen since the last cognition trigger. -/
def c2WitnessState : EngineState := runTrace cogFiveEngine (cogFiveTrace.take 4)

/-- C2: cognition analysis is triggered exactly when `frequency` messages
have arrived since the last trigger, and `messagesSinceLastCognition` is
reset to zero at trigger time — when the threshold is hit, before the
debounce fires and before the analysis starts — not at completion time.
Conjuncts: (1) hitting the effective frequency resets the counter
immediately and arms the debounce; (2) below the threshold the counter
only increments; (3) launching (`processMetaCognition`) never touches the
counter; (4) completion (`finishCognition`) never touches the counter;
(5) with frequency 5 and twelve sequential single-message responses
(messages at 0 s, 2 s, …, 22 s; the 5th at 8 s, the 10th at 18 s),
cognition `analysis_start` fires exactly twice — at 9 s and 19 s, i.e. one
debounce delay after the 5th and the 10th message — and never for the
12th. -/
theorem cognition_frequency_trigger_and_counter_reset :
    (∀ s : EngineState, s.cognition.enabled = true →
      (if s.cognition.frequency = 0 then 10 else s.cognition.frequency) ≤
        s.meta.messagesSinceLastCognition + 1 →
      (bumpMetaCognitionTimer s).meta.messagesSinceLastCognition = 0 ∧
      (bumpMetaCognitionTimer s).cognitionDebounceTimer = some (s.now + DEBOUNCE_DELAY)) ∧
    (∀ s : EngineState, s.cognition.enabled = true →
      s.meta.messagesSinceLastCognition + 1 <
        (if s.cognition.frequency = 0 then 10 else s.cognition.frequency) →
      (bumpMetaCognitionTimer s).meta.messagesSinceLastCognition =
        s.meta.messagesSinceLastCognition + 1) ∧
    (∀ s : EngineState,
      (processMetaCognition s).meta.messagesSinceLastCognition =
        s.meta.messagesSinceLastCognition) ∧
    (∀ (eid : Nat) (o : Outcome) (s : EngineState),
      (finishCognition eid o s).meta.messagesSinceLastCognition =
        s.meta.messagesSinceLastCognition) ∧
    startEventsOf Kind.cognition cogFiveFinal.eventLog =
      [⟨Kind.cognition, true, 0, 9000⟩, ⟨Kind.cognition, true, 1, 19000⟩] :=
  ⟨fun s h1 h2 => bumpMetaCognitionTimer_trigger s h1 h2,
   fun s h1 h2 => (bumpMetaCognitionTimer_below s h1 h2).1,
   processMetaCognition_counter,
   finishCognition_counter,
   by decide⟩

/-- Witness for C2 at a concrete input: after four messages of the
frequency-5 scenario, the fifth bump resets the counter and arms the
debounce timer. -/
theorem cognition_frequency_trigger_and_counter_reset_witness :
    c2WitnessState.cognition.enabled = true ∧
    (if c2WitnessState.cognition.frequency = 0 then 10 else c2WitnessState.cognition.frequency) ≤
      c2WitnessState.meta.messagesSinceLastCognition + 1 ∧
    (bumpMetaCognitionTimer c2WitnessState).meta.messagesSinceLastCognition = 0 :=
  ⟨by decide, by decide,
   (cognition_frequency_trigger_and_counter_reset.1 c2WitnessState (by decide) (by decide)).1⟩

/-- C5: for a burst of fewer than `BATCH_THRESHOLD` messages, each new
message cancels and restarts the pending memory debounce timer (conjunct
1: below the threshold, the bump replaces the deadline with
`now + DEBOUNCE_DELAY` and changes nothing else — in particular it
launches nothing), and memory analysis launches exactly once, only after
the quiet period following the last message of the burst (conjunct 2: five
messages at 0.5 s, 0.8 s, 1.1 s, 1.4 s, 1.7 s produce exactly one event by
5 s — a memory `tagging_start` at 2.7 s; conjunct 3: 2.7 s is the last
message plus the debounce delay). -/
theorem memory_debounce_single_launch_after_quiet_period :
    (∀ s : EngineState, s.meta.unprocessedMemoryMessages.length < BATCH_THRESHOLD →
      bumpMetaMemoryTimer s = { s with memoryDebounceTimer := some (s.now + DEBOUNCE_DELAY) }) ∧
    memBurstFinal.eventLog = [⟨Kind.memory, true, 0, 2700⟩] ∧
    2700 = 1700 + DEBOUNCE_DELAY :=
  ⟨bumpMetaMemoryTimer_below, by decide, by decide⟩

/-- Witness for C5 at a concrete input: the first bump of the burst
scenario merely arms the debounce timer for 1.5 s. -/
theorem memory_debounce_single_launch_after_quiet_period_witness :
    (runTrace memOnlyEngine (memBurstTrace.take 1)).memoryDebounceTimer = some 1500 ∧
    memOnlyEngine.meta.unprocessedMemoryMessages.length < BATCH_THRESHOLD ∧
    bumpMetaMemoryTimer memOnlyEngine =
      { memOnlyEngine with memoryDebounceTimer := some (memOnlyEngine.now + DEBOUNCE_DELAY) } :=
  ⟨by decide, by decide,
   memory_debounce_single_launch_after_quiet_period.1 memOnlyEngine (by decide)⟩

/-- The state just before the twentieth message of the twenty-message
scenario: nine messages queued, the analysis launched at the tenth still
in flight. -/
def memCexPre : EngineState := runTrace memOnlyEngine (memTwentyTrace.take 19)

/-- The state after the twentieth message. -/
def memCexPost : EngineState := stepStimulus memCexPre (20, .message 20)

set_option maxRecDepth 100000 in
/-- C4 counterexample: the claim "for every incoming message, if appending
it makes the unprocessed-memory queue reach the batch threshold, memory
analysis is launched immediately in the same trigger step" fails on the
twentieth message of the twenty-message scenario.  Appending that message
makes the queue reach the threshold (conjuncts 1-2), the memory analysis
launched at the tenth message is still marked processing and is not stuck
(conjuncts 3-4), and the trigger step launches nothing: the event log is
unchanged and still holds exactly the single `tagging_start` of the tenth
message — while the debounce timer is nevertheless cancelled, leaving the
ten messages queued (conjuncts 5-7). -/
theorem memory_batch_threshold_skipped_while_processing :
    memCexPre.meta.unprocessedMemoryMessages.length + 1 = BATCH_THRESHOLD ∧
    memCexPost.meta.unprocessedMemoryMessages.length = BATCH_THRESHOLD ∧
    memCexPre.memory.processing = true ∧
    memCexPre.memory.lastProcessingStartTime = some 10 ∧
    memCexPost.eventLog = memCexPre.eventLog ∧
    memCexPost.eventLog = [⟨Kind.memory, true, 0, 10⟩] ∧
    memCexPost.memoryDebounceTimer = none := by
  refine ⟨by decide, by decide, by decide, by decide, by decide, by decide, by decide⟩

theorem cognitionGate_eventLog (x : EngineState) :
    (if x.cognition.enabled = true then bumpMetaCognitionTimer x else x).eventLog = x.eventLog := by
  split
  · exact bumpMetaCognitionTimer_eventLog x
  · rfl

theorem cognitionGate_memoryDebounceTimer (x : EngineState) :
    (if x.cognition.enabled = true then bumpMetaCognitionTimer x else x).memoryDebounceTimer =
      x.memoryDebounceTimer := by
  split
  · exact bumpMetaCognitionTimer_memoryDebounceTimer x
  · rfl

/-- The tail of `onMessage` when the batch threshold is already reached and
the single-flight gate passes: the memory bump launches immediately with
the debounce timer cancelled, and the cognition bump changes neither the
event log nor the memory debounce timer. -/
theorem onMessage_tail_batch (x : EngineState) (h1 : x.hasMetamemory = true)
    (h2 : x.memory.enabled = true) (h3 : x.memory.processing = false)
    (h4 : BATCH_THRESHOLD ≤ x.meta.unprocessedMemoryMessages.length) :
    (if (bumpMetaMemoryTimer x).cognition.enabled = true
     then bumpMetaCognitionTimer (bumpMetaMemoryTimer x) else bumpMetaMemoryTimer x).eventLog
      = x.eventLog ++ [⟨Kind.memory, true, x.nextEventId, x.now⟩] ∧
    (if (bumpMetaMemoryTimer x).cognition.enabled = true
     then bumpMetaCognitionTimer (bumpMetaMemoryTimer x)
     else bumpMetaMemoryTimer x).memoryDebounceTimer = none := by
  have hcall : bumpMetaMemoryTimer x = processMetaMemory { x with memoryDebounceTimer := none } := by
    simp only [bumpMetaMemoryTimer]
    rw [if_pos h4]
  have hlaunch : processMetaMemory { x with memoryDebounceTimer := none } =
      launchMemory { x with memoryDebounceTimer := none } := by
    apply processMetaMemory_launch
    · exact h1
    · exact h2
    · exact h3
    · intro hnil
      rw [show ({ x with memoryDebounceTimer := none } : EngineState).meta.unprocessedMemoryMessages
          = x.meta.unprocessedMemoryMessages from rfl] at hnil
      rw [hnil] at h4
      simp [BATCH_THRESHOLD] at h4
  rw [hcall, hlaunch]
  constructor
  · rw [cognitionGate_eventLog]
    simp [launchMemory]
  · rw [cognitionGate_memoryDebounceTimer]
    simp [launchMemory]

/-- C4 amended: for every incoming message, if appending it makes the
unprocessed-memory queue reach the batch threshold while metamemory is
active and no memory analysis is marked processing, memory analysis is
launched immediately in the same trigger step — the `tagging_start` event
is pushed synchronously with the current timestamp — and the pending
debounce timer is cancelled rather than left to fire after the debounce
delay. -/
theorem memory_batch_threshold_immediate_launch :
    ∀ (s : EngineState) (m : Msg),
      s.hasMetamemory = true → s.memory.enabled = true → s.memory.processing = false →
      BATCH_THRESHOLD ≤ s.meta.unprocessedMemoryMessages.length + 1 →
      (onMessage m s).eventLog = s.eventLog ++ [⟨Kind.memory, true, s.nextEventId, s.now⟩] ∧
      (onMessage m s).memoryDebounceTimer = none := by
  intro s m hm he hp hq
  simp only [onMessage]
  split
  case isTrue hgate =>
    refine onMessage_tail_batch _ hm he hp ?_
    simp only [List.length_append, List.length_cons, List.length_nil]
    omega
  case isFalse hgate =>
    rw [hm, he] at hgate
    simp at hgate

/-- The state just before the tenth message of the twenty-message
scenario: nine messages queued, nothing processing. -/
def c4WitnessState : EngineState := runTrace memOnlyEngine (memTwentyTrace.take 9)

/-- Witness for the amended C4 at a concrete input: the tenth message of
the twenty-message scenario launches in the same step. -/
theorem memory_batch_threshold_immediate_launch_witness :
    c4WitnessState.memory.processing = false ∧
    BATCH_THRESHOLD ≤ c4WitnessState.meta.unprocessedMemoryMessages.length + 1 ∧
    (onMessage 10 c4WitnessState).eventLog =
      c4WitnessState.eventLog ++
        [⟨Kind.memory, true, c4WitnessState.nextEventId, c4WitnessState.now⟩] ∧
    (onMessage 10 c4WitnessState).memoryDebounceTimer = none :=
  ⟨by decide, by decide,
   (memory_batch_threshold_immediate_launch c4WitnessState 10
     (by decide) (by decide) (by decide) (by decide)).1,
   (memory_batch_threshold_immediate_launch c4WitnessState 10
     (by decide) (by decide) (by decide) (by decide)).2⟩

/-! ## Claim theorems: failure containment and lifecycle -/

/-- C6: for every launched analysis of either kind, an error or timeout of
the background operation is absorbed by the `.catch` continuation — the
model's completion function is total, no error event of any sort is pushed,
and the event log is left unchanged — while in every outcome the
`.finally` continuation clears both the `processing` flag and
`lastProcessingStartTime`; only a successful outcome pushes the single
`AnalysisComplete` event carrying the start's correlation id. -/
theorem analysis_failure_contained :
    (∀ (eid : Nat) (o : Outcome) (s : EngineState),
      (⟨Kind.memory, eid⟩ : Flight) ∈ s.pendingOps →
      (finishMemory eid o s).memory.processing = false ∧
      (finishMemory eid o s).memory.lastProcessingStartTime = none ∧
      (o ≠ Outcome.success → (finishMemory eid o s).eventLog = s.eventLog) ∧
      (o = Outcome.success →
        (finishMemory eid o s).eventLog = s.eventLog ++ [⟨Kind.memory, false, eid, s.now⟩])) ∧
    (∀ (eid : Nat) (o : Outcome) (s : EngineState),
      (⟨Kind.cognition, eid⟩ : Flight) ∈ s.pendingOps →
      (finishCognition eid o s).cognition.processing = false ∧
      (finishCognition eid o s).cognition.lastProcessingStartTime = none ∧
      (o ≠ Outcome.success → (finishCognition eid o s).eventLog = s.eventLog) ∧
      (o = Outcome.success →
        (finishCognition eid o s).eventLog = s.eventLog ++ [⟨Kind.cognition, false, eid, s.now⟩])) := by
  constructor
  · intro eid o s hmem
    simp only [finishMemory, if_pos hmem]
    cases o <;> simp
  · intro eid o s hmem
    simp only [finishCognition, if_pos hmem]
    cases o <;> simp

/-- Witness for C6 at a concrete input: a failed memory analysis with one
pending operation clears the flag and emits nothing. -/
theorem analysis_failure_contained_witness :
    (⟨Kind.memory, 0⟩ : Flight) ∈ (launchMemory memOnlyEngine).pendingOps ∧
    (finishMemory 0 Outcome.error (launchMemory memOnlyEngine)).memory.processing = false ∧
    (finishMemory 0 Outcome.error (launchMemory memOnlyEngine)).eventLog =
      (launchMemory memOnlyEngine).eventLog :=
  ⟨by decide,
   (analysis_failure_contained.1 0 Outcome.error (launchMemory memOnlyEngine) (by decide)).1,
   (analysis_failure_contained.1 0 Outcome.error (launchMemory memOnlyEngine) (by decide)).2.2.1
     (by decide)⟩

/-- C10: when `runTask` is handed a `taskLocalState` carrying a messages
array, the conversation history is exactly a copy of that array and the
`content` argument is never appended (conjunct 1; the ternary tests
truthiness, and any array — even `[]` — is truthy); `content` is installed
as the initial user message only when no messages field is supplied
(conjunct 2); `resumeTask` relies on this: with non-empty new content it
appends the new user message itself and passes placeholder content, which
never reaches the history (conjunct 3). -/
theorem history_copy_on_resume :
    (∀ (ms : List ChatMsg) (c : String), runTaskMessages c (some ms) = ms) ∧
    (∀ c : String, runTaskMessages c none = [{ role := "user", content := c }]) ∧
    (∀ (fs : Option (List ChatMsg)) (c : String), c ≠ "" →
      resumeTaskMessages fs (some c) = fs.getD [] ++ [{ role := "user", content := c }]) := by
  refine ⟨fun ms c => rfl, fun c => rfl, fun fs c hc => ?_⟩
  simp [resumeTaskMessages, runTaskMessages, hc]

/-- Witness for C10 at a concrete input: resuming with new content appends
exactly the new user message to the prior history. -/
theorem history_copy_on_resume_witness :
    resumeTaskMessages (some [{ role := "user", content := "hi" }]) (some "more") =
      [{ role := "user", content := "hi" }, { role := "user", content := "more" }] :=
  history_copy_on_resume.2.2 (some [{ role := "user", content := "hi" }]) "more" (by decide)

/-- C8: the cleanup path of `taskGenerator` synthesizes the generic
`task_fatal_error` terminal event (result "Task ended without explicit
completion") exactly once if and only if a `task_start` event was emitted
and no `task_complete` / `task_fatal_error` completion event was reached
before cleanup; in every run the cleanup yields either nothing or exactly
that one event, and the full stream is the pre-cleanup events followed by
the cleanup events. -/
theorem cleanup_synthesizes_terminal_event :
    ∀ (ri : Bool) (o : RunOutcome),
      ((generatorRunParts ri o).2 = [genericFatalEvent] ↔
        (GenEvent.taskStart ∈ (generatorRunParts ri o).1 ∧
         ∀ e ∈ (generatorRunParts ri o).1, isCompletionEvent e = false)) ∧
      ((generatorRunParts ri o).2 = [] ∨ (generatorRunParts ri o).2 = [genericFatalEvent]) ∧
      generatorRun ri o = (generatorRunParts ri o).1 ++ (generatorRunParts ri o).2 := by
  intro ri o
  cases ri <;> cases o <;>
    simp [generatorRunParts, generatorRun, genericFatalEvent, isCompletionEvent]

/-- Witness for C8 at a concrete input: an abandoned run that had emitted
`task_start` yields exactly the synthesized terminal event at cleanup. -/
theorem cleanup_synthesizes_terminal_event_witness :
    (generatorRunParts false RunOutcome.abandoned).2 = [genericFatalEvent] ∧
    generatorRun false RunOutcome.abandoned = [GenEvent.taskStart, genericFatalEvent] :=
  ⟨(cleanup_synthesizes_terminal_event false RunOutcome.abandoned).1.mpr
     ⟨by decide, by decide⟩,
   by decide⟩

/-! ## Claim theorems: stuck-state recovery -/

/-- `jsSetOfList` keeps exactly the elements of its input. -/
theorem mem_jsSetOfList (l : List String) (y : String) :
    y ∈ jsSetOfList l ↔ y ∈ l := by
  have step : ∀ (l : List String) (acc : List String),
      y ∈ l.foldl (fun acc x => if x ∈ acc then acc else acc ++ [x]) acc ↔ y ∈ acc ∨ y ∈ l := by
    intro l
    induction l with
    | nil => intro acc; simp
    | cons x xs ih =>
      intro acc
      rw [List.foldl_cons, ih]
      by_cases hx : x ∈ acc
      · simp only [if_pos hx, List.mem_cons]
        constructor
        · rintro (h | h)
          · exact Or.inl h
          · exact Or.inr (Or.inr h)
        · rintro (h | h | h)
          · exact Or.inl h
          · exact Or.inl (h ▸ hx)
          · exact Or.inr h
      · simp only [if_neg hx, List.mem_append, List.mem_singleton, List.mem_cons]
        tauto
  rw [jsSetOfList, step]
  simp

/-- `jsSetOfList` produces a duplicate-free list (a faithful `Set`). -/
theorem nodup_jsSetOfList (l : List String) : (jsSetOfList l).Nodup := by
  have step : ∀ (l : List String) (acc : List String),
      acc.Nodup → (l.foldl (fun acc x => if x ∈ acc then acc else acc ++ [x]) acc).Nodup := by
    intro l
    induction l with
    | nil => intro acc h; simpa using h
    | cons x xs ih =>
      intro acc h
      rw [List.foldl_cons]
      apply ih
      by_cases hx : x ∈ acc
      · simpa [if_pos hx] using h
      · rw [if_neg hx]
        simp [List.nodup_append, h, hx]
  exact step l [] List.nodup_nil

/-- Proactive recovery at task start/resume, cognition kind, stuck case. -/
theorem runTaskInit_cognition_stuck (tls : TaskLocalStateIn) (cogIn : CognitionIn)
    (t now fa dt : Nat) (htls : tls.cognition = some cogIn)
    (hproc : cogIn.processing = some true) (hlast : cogIn.lastProcessingStartTime = some t)
    (ht : 0 < t) (hth : STUCK_THRESHOLD < now - t) :
    (runTaskInit (some tls) now fa dt).cognition.processing = false ∧
    (runTaskInit (some tls) now fa dt).cognition.lastProcessingStartTime = none ∧
    (now - t) ∈ (runTaskInit (some tls) now fa dt).warnings := by
  simp [runTaskInit, htls, hproc, hlast, jsTruthyTime, Nat.pos_iff_ne_zero.mp ht, hth]
  split <;> simp

/-- Proactive recovery at task start/resume, cognition kind, young case. -/
theorem runTaskInit_cognition_young (tls : TaskLocalStateIn) (cogIn : CognitionIn)
    (t now fa dt : Nat) (htls : tls.cognition = some cogIn)
    (hproc : cogIn.processing = some true) (hlast : cogIn.lastProcessingStartTime = some t)
    (hth : now - t ≤ STUCK_THRESHOLD) :
    (runTaskInit (some tls) now fa dt).cognition.processing = true ∧
    (runTaskInit (some tls) now fa dt).cognition.lastProcessingStartTime = some t := by
  simp [runTaskInit, htls, hproc, hlast, jsTruthyTime, not_lt.mpr hth]

/-- Proactive recovery at task start/resume, memory kind, stuck case. -/
theorem runTaskInit_memory_stuck (tls : TaskLocalStateIn) (memIn : MemoryIn)
    (t now fa dt : Nat) (htls : tls.memory = some memIn)
    (hproc : memIn.processing = some true) (hlast : memIn.lastProcessingStartTime = some t)
    (ht : 0 < t) (hth : STUCK_THRESHOLD < now - t) :
    (runTaskInit (some tls) now fa dt).memory.processing = false ∧
    (runTaskInit (some tls) now fa dt).memory.lastProcessingStartTime = none ∧
    (now - t) ∈ (runTaskInit (some tls) now fa dt).warnings := by
  simp [runTaskInit, htls, hproc, hlast, jsTruthyTime, Nat.pos_iff_ne_zero.mp ht, hth]

/-- Proactive recovery at task start/resume, memory kind, young case. -/
theorem runTaskInit_memory_young (tls : TaskLocalStateIn) (memIn : MemoryIn)
    (t now fa dt : Nat) (htls : tls.memory = some memIn)
    (hproc : memIn.processing = some true) (hlast : memIn.lastProcessingStartTime = some t)
    (hth : now - t ≤ STUCK_THRESHOLD) :
    (runTaskInit (some tls) now fa dt).memory.processing = true ∧
    (runTaskInit (some tls) now fa dt).memory.lastProcessingStartTime = some t := by
  simp [runTaskInit, htls, hproc, hlast, jsTruthyTime, not_lt.mpr hth]

/-- C3: whenever a trigger attempt or a task start/resume finds
`processing = true`, the recovery logic clears the flag and its start
timestamp if and only if the measured elapsed time exceeds the 2-minute
stuck threshold.  Conjuncts 1-2: at a memory trigger attempt, a stuck flag
is cleared with a warning recording the measured elapsed time and the
attempt proceeds, while a young flag leaves the whole trigger attempt a
no-op; conjuncts 3-4: the same for cognition; conjuncts 5-8: the proactive
pass at task start/resume (`runTaskInit`) behaves identically for both
kinds. -/
theorem stuck_recovery_iff_threshold :
    (∀ (s : EngineState) (t : Nat), s.memory.processing = true →
      s.memory.lastProcessingStartTime = some t → 0 < t → STUCK_THRESHOLD < s.now - t →
      (stuckCheckMemory s).1.memory.processing = false ∧
      (stuckCheckMemory s).1.memory.lastProcessingStartTime = none ∧
      (stuckCheckMemory s).1.warnings = s.warnings ++ [s.now - t] ∧
      (stuckCheckMemory s).2 = true) ∧
    (∀ (s : EngineState) (t : Nat), s.memory.processing = true →
      s.memory.lastProcessingStartTime = some t → s.now - t ≤ STUCK_THRESHOLD →
      processMetaMemory s = s) ∧
    (∀ (s : EngineState) (t : Nat), s.cognition.processing = true →
      s.cognition.lastProcessingStartTime = some t → 0 < t → STUCK_THRESHOLD < s.now - t →
      (stuckCheckCognition s).1.cognition.processing = false ∧
      (stuckCheckCognition s).1.cognition.lastProcessingStartTime = none ∧
      (stuckCheckCognition s).1.warnings = s.warnings ++ [s.now - t] ∧
      (stuckCheckCognition s).2 = true) ∧
    (∀ (s : EngineState) (t : Nat), s.cognition.processing = true →
      s.cognition.lastProcessingStartTime = some t → s.now - t ≤ STUCK_THRESHOLD →
      processMetaCognition s = s) ∧
    (∀ (tls : TaskLocalStateIn) (cogIn : CognitionIn) (t now fa dt : Nat),
      tls.cognition = some cogIn → cogIn.processing = some true →
      cogIn.lastProcessingStartTime = some t → 0 < t → STUCK_THRESHOLD < now - t →
      (runTaskInit (some tls) now fa dt).cognition.processing = false ∧
      (runTaskInit (some tls) now fa dt).cognition.lastProcessingStartTime = none ∧
      (now - t) ∈ (runTaskInit (some tls) now fa dt).warnings) ∧
    (∀ (tls : TaskLocalStateIn) (cogIn : CognitionIn) (t now fa dt : Nat),
      tls.cognition = some cogIn → cogIn.processing = some true →
      cogIn.lastProcessingStartTime = some t → now - t ≤ STUCK_THRESHOLD →
      (runTaskInit (some tls) now fa dt).cognition.processing = true ∧
      (runTaskInit (some tls) now fa dt).cognition.lastProcessingStartTime = some t) ∧
    (∀ (tls : TaskLocalStateIn) (memIn : MemoryIn) (t now fa dt : Nat),
      tls.memory = some memIn → memIn.processing = some true →
      memIn.lastProcessingStartTime = some t → 0 < t → STUCK_THRESHOLD < now - t →
      (runTaskInit (some tls) now fa dt).memory.processing = false ∧
      (runTaskInit (some tls) now fa dt).memory.lastProcessingStartTime = none ∧
      (now - t) ∈ (runTaskInit (some tls) now fa dt).warnings) ∧
    (∀ (tls : TaskLocalStateIn) (memIn : MemoryIn) (t now fa dt : Nat),
      tls.memory = some memIn → memIn.processing = some true →
      memIn.lastProcessingStartTime = some t → now - t ≤ STUCK_THRESHOLD →
      (runTaskInit (some tls) now fa dt).memory.processing = true ∧
      (runTaskInit (some tls) now fa dt).memory.lastProcessingStartTime = some t) := by
  refine ⟨?_, ?_, ?_, ?_, ?_, ?_, ?_, ?_⟩
  · intro s t hp hl ht hth
    have : jsElapsed s.now s.memory.lastProcessingStartTime = s.now - t := by
      rw [hl]; simp [jsElapsed, Nat.pos_iff_ne_zero.mp ht]
    simp only [stuckCheckMemory, hp, if_true, this, if_pos hth]
    simp
  · intro s t hp hl hth
    have hel : jsElapsed s.now s.memory.lastProcessingStartTime ≤ STUCK_THRESHOLD := by
      rw [hl]; simp only [jsElapsed]; split <;> omega
    have hsc : stuckCheckMemory s = (s, false) := by
      simp only [stuckCheckMemory, hp, if_true, if_neg (not_lt.mpr hel)]
    simp only [processMetaMemory, hsc]
    split <;> rfl
  · intro s t hp hl ht hth
    have : jsElapsed s.now s.cognition.lastProcessingStartTime = s.now - t := by
      rw [hl]; simp [jsElapsed, Nat.pos_iff_ne_zero.mp ht]
    simp only [stuckCheckCognition, hp, if_true, this, if_pos hth]
    simp
  · intro s t hp hl hth
    have hel : jsElapsed s.now s.cognition.lastProcessingStartTime ≤ STUCK_THRESHOLD := by
      rw [hl]; simp only [jsElapsed]; split <;> omega
    have hsc : stuckCheckCognition s = (s, false) := by
      simp only [stuckCheckCognition, hp, if_true, if_neg (not_lt.mpr hel)]
    simp only [processMetaCognition, hsc]
    rfl
  · exact runTaskInit_cognition_stuck
  · exact runTaskInit_cognition_young
  · exact runTaskInit_memory_stuck
  · exact runTaskInit_memory_young

/-- A resumed engine state whose memory analysis has been stuck since
1 ms after the epoch, observed at 200 s. -/
def c3WitnessState : EngineState :=
  { memOnlyEngine with
      now := 200000,
      memory := { enabled := true, processing := true, lastProcessingStartTime := some 1 } }

/-- Witness for C3 at a concrete input: at 200 s a flag started at 1 ms is
stuck; the trigger-path recovery clears it and records the elapsed time. -/
theorem stuck_recovery_iff_threshold_witness :
    STUCK_THRESHOLD < c3WitnessState.now - 1 ∧
    (stuckCheckMemory c3WitnessState).1.memory.processing = false ∧
    (stuckCheckMemory c3WitnessState).1.warnings =
      c3WitnessState.warnings ++ [c3WitnessState.now - 1] :=
  ⟨by decide,
   (stuck_recovery_iff_threshold.1 c3WitnessState 1 (by decide) (by decide) (by decide)
     (by decide)).1,
   (stuck_recovery_iff_threshold.1 c3WitnessState 1 (by decide) (by decide) (by decide)
     (by decide)).2.2.1⟩

/-- C9: resuming from a serialized task-state snapshot reconstructs
equivalent native processing state.  Conjunct 1: the abort controller is
never taken from the snapshot — it is the freshly created one on every
invocation, whatever the input; conjunct 2: a plain `disabledModels` array
becomes a native set with exactly the same membership and no duplicates;
conjuncts 3-4: the memory state's `topicTags`, `taggedMessages` and
`topicCompaction` plain objects become native maps with the same entries;
conjunct 5: a snapshot whose memory processing flag is stuck is
force-reset during initialization, so the engine state in which the first
trigger could ever run already has the flag cleared. -/
theorem resume_reconstructs_native_state :
    (∀ (inp : Option TaskLocalStateIn) (now fa dt : Nat),
      (runTaskInit inp now fa dt).delayAbortController = fa) ∧
    (∀ (tls : TaskLocalStateIn) (cogIn : CognitionIn) (l : List String) (now fa dt : Nat),
      tls.cognition = some cogIn → cogIn.disabledModels = some (SetOrArray.array l) →
      (∀ x, x ∈ (runTaskInit (some tls) now fa dt).cognition.disabledModels ↔ x ∈ l) ∧
      (runTaskInit (some tls) now fa dt).cognition.disabledModels.Nodup) ∧
    (∀ (tls : TaskLocalStateIn) (memIn : MemoryIn) (st : MemoryStateIn)
        (e1 e2 : List (String × Nat)) (now fa dt : Nat),
      tls.memory = some memIn → memIn.state = some st →
      st.topicTags = some (MapOrObj.plainObj e1) →
      st.taggedMessages = some (MapOrObj.plainObj e2) →
      (runTaskInit (some tls) now fa dt).memory.state.topicTags = e1 ∧
      (runTaskInit (some tls) now fa dt).memory.state.taggedMessages = e2) ∧
    (∀ (tls : TaskLocalStateIn) (memIn : MemoryIn) (st : MemoryStateIn)
        (e3 : List (String × Nat)) (now fa dt : Nat),
      tls.memory = some memIn → memIn.state = some st →
      st.topicCompaction = some (MapOrObj.plainObj e3) →
      (runTaskInit (some tls) now fa dt).memory.state.topicCompaction = some e3) ∧
    (∀ (tls : TaskLocalStateIn) (memIn : MemoryIn) (t now fa dt : Nat)
        (ms0 : List Msg) (t0 : Nat),
      tls.memory = some memIn → memIn.processing = some true →
      memIn.lastProcessingStartTime = some t → 0 < t → STUCK_THRESHOLD < now - t →
      (initEngineState (runTaskInit (some tls) now fa dt) ms0 t0).memory.processing = false ∧
      (initEngineState (runTaskInit (some tls) now fa dt) ms0 t0).memory.lastProcessingStartTime
        = none) := by
  refine ⟨?_, ?_, ?_, ?_, ?_⟩
  · intro inp now fa dt
    cases inp <;> rfl
  · intro tls cogIn l now fa dt htls hdm
    constructor
    · intro x
      have : (runTaskInit (some tls) now fa dt).cognition.disabledModels = jsSetOfList l := by
        simp [runTaskInit, htls, hdm, reconstructDisabledModels]
        split <;> rfl
      rw [this, mem_jsSetOfList]
    · have : (runTaskInit (some tls) now fa dt).cognition.disabledModels = jsSetOfList l := by
        simp [runTaskInit, htls, hdm, reconstructDisabledModels]
        split <;> rfl
      rw [this]
      exact nodup_jsSetOfList l
  · intro tls memIn st e1 e2 now fa dt htls hst h1 h2
    constructor
    · simp [runTaskInit, htls, hst, reconstructMemoryState, reconstructMap, h1]
      split <;> rfl
    · simp [runTaskInit, htls, hst, reconstructMemoryState, reconstructMap, h2]
      split <;> rfl
  · intro tls memIn st e3 now fa dt htls hst h3
    simp [runTaskInit, htls, hst, reconstructMemoryState, h3]
    split <;> rfl
  · intro tls memIn t now fa dt ms0 t0 htls hproc hlast ht hth
    have h := runTaskInit_memory_stuck tls memIn t now fa dt htls hproc hlast ht hth
    exact ⟨h.1, h.2.1⟩

/-- Witness for C9 at a concrete input: a snapshot with a two-element
disabled-model array (with a duplicate), plain-object maps, a snapshot
abort-controller id of 99, and a stuck memory flag. -/
def c9WitnessIn : TaskLocalStateIn :=
  { requestCount := some 3,
    runIndefinitely := false,
    cognition := some
      { enabled := some true, frequency := some 5, thoughtDelay := none,
        processing := none, lastProcessingStartTime := none,
        disabledModels := some (SetOrArray.array ["a", "b", "a"]),
        modelScores := none },
    memory := some
      { enabled := some true, processing := some true, lastProcessingStartTime := some 1,
        state := some
          { topicTags := some (MapOrObj.plainObj [("t", 1)]),
            taggedMessages := some (MapOrObj.plainObj [("m", 2)]),
            topicCompaction := none,
            lastProcessedIndex := some 4 } },
    delayAbortController := some 99 }

/-- Witness for C9: reconstruction at the concrete snapshot. -/
theorem resume_reconstructs_native_state_witness :
    (runTaskInit (some c9WitnessIn) 200000 7 0).delayAbortController = 7 ∧
    ("a" ∈ (runTaskInit (some c9WitnessIn) 200000 7 0).cognition.disabledModels ↔
      "a" ∈ ["a", "b", "a"]) ∧
    (runTaskInit (some c9WitnessIn) 200000 7 0).memory.state.topicTags = [("t", 1)] ∧
    (initEngineState (runTaskInit (some c9WitnessIn) 200000 7 0) [0] 200000).memory.processing
      = false :=
  ⟨resume_reconstructs_native_state.1 (some c9WitnessIn) 200000 7 0,
   (resume_reconstructs_native_state.2.1 c9WitnessIn _ ["a", "b", "a"] 200000 7 0
     rfl rfl).1 "a",
   (resume_reconstructs_native_state.2.2.1 c9WitnessIn _ _ [("t", 1)] [("m", 2)] 200000 7 0
     rfl rfl rfl rfl).1,
   (resume_reconstructs_native_state.2.2.2.2 c9WitnessIn _ 1 200000 7 0 [0] 200000
     rfl rfl rfl (by decide) (by decide)).1⟩

/-! ## The single-flight ghost invariant (for the no-concurrency claim) -/

/-- The `processing` flag of the given kind. -/
def processingOf : Kind → EngineState → Bool
  | .memory, s => s.memory.processing
  | .cognition, s => s.cognition.processing

theorem flagHistory_append (k : Kind) (log : List FlagAction) (a : FlagAction) :
    flagHistory k (log ++ [a]) =
      flagHistory k log ++ (if a.kind = k then [a.isLaunch] else []) := by
  simp only [flagHistory, List.filter_append, List.map_append]
  congr 1
  by_cases h : a.kind = k
  · simp [h]
  · simp [h]

/-- Appending a clear never breaks launch separation. -/
theorem LaunchesSeparated_append_clear (l : List Bool) (h : LaunchesSeparated l) :
    LaunchesSeparated (l ++ [false]) := by
  rw [LaunchesSeparated, List.chain'_append]
  refine ⟨h, List.chain'_singleton _, ?_⟩
  intro x _ y hy
  simp only [List.head?_cons, Option.mem_def, Option.some.injEq] at hy
  exact Or.inr hy.symm

/-- Appending a launch keeps launch separation when the history does not
already end in a launch. -/
theorem LaunchesSeparated_append_launch (l : List Bool) (h : LaunchesSeparated l)
    (hlast : l.getLast? ≠ some true) : LaunchesSeparated (l ++ [true]) := by
  rw [LaunchesSeparated, List.chain'_append]
  refine ⟨h, List.chain'_singleton _, ?_⟩
  intro x hx y hy
  simp only [List.head?_cons, Option.mem_def, Option.some.injEq] at hy
  left
  cases x with
  | false => rfl
  | true => exact absurd (Option.mem_def.mp hx) hlast

/-- Invariant of one flag: the launch/clear history of kind `k` never holds
two launches without a clear between them, and a history ending in a launch
means the flag is currently set. -/
def FlagInvK (k : Kind) (s : EngineState) : Prop :=
  LaunchesSeparated (flagHistory k s.flagLog) ∧
  ((flagHistory k s.flagLog).getLast? = some true → processingOf k s = true)

def FlagInv (s : EngineState) : Prop := FlagInvK Kind.memory s ∧ FlagInvK Kind.cognition s

theorem FlagInv_congr {s s' : EngineState} (hlog : s'.flagLog = s.flagLog)
    (hm : s'.memory.processing = s.memory.processing)
    (hc : s'.cognition.processing = s.cognition.processing)
    (h : FlagInv s) : FlagInv s' := by
  refine ⟨⟨?_, ?_⟩, ⟨?_, ?_⟩⟩ <;> rw [hlog]
  · exact h.1.1
  · intro hl
    rw [show processingOf Kind.memory s' = s'.memory.processing from rfl, hm]
    exact h.1.2 hl
  · exact h.2.1
  · intro hl
    rw [show processingOf Kind.cognition s' = s'.cognition.processing from rfl, hc]
    exact h.2.2 hl

/-- Appending a clear of kind `k'` preserves the invariant, provided the
other kind's flag is untouched (the cleared kind's flag may change
freely). -/
theorem FlagInv_append_clear (k' : Kind) {s s' : EngineState}
    (hlog : s'.flagLog = s.flagLog ++ [FlagAction.clear k'])
    (hother : ∀ k, k ≠ k' → processingOf k s' = processingOf k s)
    (h : FlagInv s) : FlagInv s' := by
  have main : ∀ k, FlagInvK k s → FlagInvK k s' := by
    intro k hk
    by_cases hkk : k' = k
    · subst hkk
      constructor
      · rw [hlog, flagHistory_append]
        simp only [FlagAction.kind, if_pos rfl, FlagAction.isLaunch]
        exact LaunchesSeparated_append_clear _ hk.1
      · rw [hlog, flagHistory_append]
        simp only [FlagAction.kind, if_pos rfl, FlagAction.isLaunch]
        intro hl
        rw [List.getLast?_append] at hl
        · simp at hl
    · constructor
      · rw [hlog, flagHistory_append]
        simp only [FlagAction.kind, if_neg hkk, List.append_nil]
        exact hk.1
      · rw [hlog, flagHistory_append]
        simp only [FlagAction.kind, if_neg hkk, List.append_nil]
        intro hl
        rw [hother k (fun hc => hkk hc.symm)]
        exact hk.2 hl
  exact ⟨main _ h.1, main _ h.2⟩

/-- Appending a launch of kind `k'` preserves the invariant, provided the
flag of kind `k'` was clear before (the single-flight gate) and is set
after, and the other kind's flag is untouched. -/
theorem FlagInv_append_launch (k' : Kind) {s s' : EngineState}
    (hlog : s'.flagLog = s.flagLog ++ [FlagAction.launch k'])
    (hpre : processingOf k' s = false)
    (hset : processingOf k' s' = true)
    (hother : ∀ k, k ≠ k' → processingOf k s' = processingOf k s)
    (h : FlagInv s) : FlagInv s' := by
  have main : ∀ k, FlagInvK k s → FlagInvK k s' := by
    intro k hk
    by_cases hkk : k' = k
    · subst hkk
      constructor
      · rw [hlog, flagHistory_append]
        simp only [FlagAction.kind, if_pos rfl, FlagAction.isLaunch]
        apply LaunchesSeparated_append_launch _ hk.1
        intro hl
        rw [hk.2 hl] at hpre
        exact Bool.true_eq_false.mp hpre
      · intro _
        exact hset
    · constructor
      · rw [hlog, flagHistory_append]
        simp only [FlagAction.kind, if_neg hkk, List.append_nil]
        exact hk.1
      · rw [hlog, flagHistory_append]
        simp only [FlagAction.kind, if_neg hkk, List.append_nil]
        intro hl
        rw [hother k (fun hc => hkk hc.symm)]
        exact hk.2 hl
  exact ⟨main _ h.1, main _ h.2⟩

theorem stuckCheckMemory_proceed_processing (s : EngineState)
    (h : (stuckCheckMemory s).2 = true) :
    (stuckCheckMemory s).1.memory.processing = false := by
  cases hp : s.memory.processing with
  | false =>
    simp only [stuckCheckMemory, hp, Bool.false_eq_true, if_false]
  | true =>
    simp only [stuckCheckMemory, hp, if_true] at h ⊢
    by_cases hst : STUCK_THRESHOLD < jsElapsed s.now s.memory.lastProcessingStartTime
    · rw [if_pos hst]
    · rw [if_neg hst] at h
      simp at h

theorem stuckCheckCognition_proceed_processing (s : EngineState)
    (h : (stuckCheckCognition s).2 = true) :
    (stuckCheckCognition s).1.cognition.processing = false := by
  cases hp : s.cognition.processing with
  | false =>
    simp only [stuckCheckCognition, hp, Bool.false_eq_true, if_false]
  | true =>
    simp only [stuckCheckCognition, hp, if_true] at h ⊢
    by_cases hst : STUCK_THRESHOLD < jsElapsed s.now s.cognition.lastProcessingStartTime
    · rw [if_pos hst]
    · rw [if_neg hst] at h
      simp at h

theorem FlagInv_stuckCheckMemory (s : EngineState) (h : FlagInv s) :
    FlagInv (stuckCheckMemory s).1 := by
  simp only [stuckCheckMemory]
  split
  · split
    · refine FlagInv_append_clear Kind.memory rfl ?_ h
      intro k hk
      cases k
      · exact absurd rfl hk
      · rfl
    · exact h
  · exact h

theorem FlagInv_stuckCheckCognition (s : EngineState) (h : FlagInv s) :
    FlagInv (stuckCheckCognition s).1 := by
  simp only [stuckCheckCognition]
  split
  · split
    · refine FlagInv_append_clear Kind.cognition rfl ?_ h
      intro k hk
      cases k
      · rfl
      · exact absurd rfl hk
    · exact h
  · exact h

theorem FlagInv_launchMemory (s : EngineState) (hpre : s.memory.processing = false)
    (h : FlagInv s) : FlagInv (launchMemory s) := by
  refine FlagInv_append_launch Kind.memory rfl hpre rfl ?_ h
  intro k hk
  cases k
  · exact absurd rfl hk
  · rfl

theorem FlagInv_launchCognition (s : EngineState) (hpre : s.cognition.processing = false)
    (h : FlagInv s) : FlagInv (launchCognition s) := by
  refine FlagInv_append_launch Kind.cognition rfl hpre rfl ?_ h
  intro k hk
  cases k
  · rfl
  · exact absurd rfl hk

theorem FlagInv_processMetaMemory (s : EngineState) (h : FlagInv s) :
    FlagInv (processMetaMemory s) := by
  have h1 : FlagInv (stuckCheckMemory s).1 := FlagInv_stuckCheckMemory s h
  have h2 := stuckCheckMemory_proceed_processing s
  rcases hsc : stuckCheckMemory s with ⟨s1, proceed⟩
  rw [hsc] at h1 h2
  simp only [processMetaMemory, hsc]
  split
  · exact h
  · split
    · exact h1
    · split
      · exact h1
      · cases hb : proceed
        · rename_i hpr _
          rw [hb] at hpr
          simp at hpr
        · exact FlagInv_launchMemory s1 (h2 hb) h1

theorem FlagInv_processMetaCognition (s : EngineState) (h : FlagInv s) :
    FlagInv (processMetaCognition s) := by
  have h1 : FlagInv (stuckCheckCognition s).1 := FlagInv_stuckCheckCognition s h
  have h2 := stuckCheckCognition_proceed_processing s
  rcases hsc : stuckCheckCognition s with ⟨s1, proceed⟩
  rw [hsc] at h1 h2
  simp only [processMetaCognition, hsc]
  split
  · exact h1
  · split
    · exact h1
    · cases hb : proceed
      · rename_i hpr _
        rw [hb] at hpr
        simp at hpr
      · exact FlagInv_launchCognition s1 (h2 hb) h1

theorem FlagInv_finishMemory (eid : Nat) (o : Outcome) (s : EngineState) (h : FlagInv s) :
    FlagInv (finishMemory eid o s) := by
  simp only [finishMemory]
  split
  · refine FlagInv_append_clear Kind.memory ?_ ?_ h
    · cases o <;> rfl
    · intro k hk
      cases k
      · exact absurd rfl hk
      · cases o <;> rfl
  · exact h

theorem FlagInv_finishCognition (eid : Nat) (o : Outcome) (s : EngineState) (h : FlagInv s) :
    FlagInv (finishCognition eid o s) := by
  simp only [finishCognition]
  split
  · refine FlagInv_append_clear Kind.cognition ?_ ?_ h
    · cases o <;> rfl
    · intro k hk
      cases k
      · cases o <;> rfl
      · exact absurd rfl hk
  · exact h

theorem FlagInv_bumpMetaMemoryTimer (s : EngineState) (h : FlagInv s) :
    FlagInv (bumpMetaMemoryTimer s) := by
  simp only [bumpMetaMemoryTimer]
  split
  · exact FlagInv_processMetaMemory _ (FlagInv_congr rfl rfl rfl h)
  · exact FlagInv_congr rfl rfl rfl h

theorem FlagInv_bumpMetaCognitionTimer (s : EngineState) (h : FlagInv s) :
    FlagInv (bumpMetaCognitionTimer s) := by
  simp only [bumpMetaCognitionTimer]
  split
  · exact h
  · split <;> (try split) <;> exact FlagInv_congr rfl rfl rfl h

theorem FlagInv_onMessage (m : Msg) (s : EngineState) (h : FlagInv s) :
    FlagInv (onMessage m s) := by
  simp only [onMessage]
  split
  · split
    · exact FlagInv_bumpMetaCognitionTimer _
        (FlagInv_bumpMetaMemoryTimer _ (FlagInv_congr rfl rfl rfl h))
    · exact FlagInv_bumpMetaMemoryTimer _ (FlagInv_congr rfl rfl rfl h)
  · split
    · exact FlagInv_bumpMetaCognitionTimer _ (FlagInv_congr rfl rfl rfl h)
    · exact FlagInv_congr rfl rfl rfl h

theorem FlagInv_firePeriodic (s : EngineState) (h : FlagInv s) :
    FlagInv (firePeriodic s) := by
  simp only [firePeriodic]
  split
  · exact FlagInv_processMetaCognition _ (FlagInv_congr rfl rfl rfl h)
  · exact FlagInv_congr rfl rfl rfl h

theorem FlagInv_applyFire (s : EngineState) (f : Nat × FireKind) (h : FlagInv s) :
    FlagInv (applyFire s f) := by
  rcases f with ⟨d, fk⟩
  cases fk
  · simp only [applyFire]
    split
    · exact FlagInv_processMetaMemory _ (FlagInv_congr rfl rfl rfl h)
    · exact h
  · simp only [applyFire]
    split
    · exact FlagInv_processMetaCognition _ (FlagInv_congr rfl rfl rfl h)
    · exact h
  · exact FlagInv_firePeriodic _ (FlagInv_congr rfl rfl rfl h)

theorem FlagInv_advanceTo (s : EngineState) (t : Nat) (h : FlagInv s) :
    FlagInv (advanceTo s t) := by
  rw [advanceTo]
  refine FlagInv_congr rfl rfl rfl ?_
  generalize dueList s t = fires
  induction fires generalizing s with
  | nil => exact h
  | cons f rest ih => exact ih _ (FlagInv_applyFire s f h)

theorem FlagInv_stepStimulus (s : EngineState) (p : Nat × Stimulus) (h : FlagInv s) :
    FlagInv (stepStimulus s p) := by
  rcases p with ⟨t, stim⟩
  cases stim
  · exact FlagInv_onMessage _ _ (FlagInv_advanceTo s t h)
  · exact FlagInv_finishMemory _ _ _ (FlagInv_advanceTo s t h)
  · exact FlagInv_finishCognition _ _ _ (FlagInv_advanceTo s t h)

theorem FlagInv_runTrace (s : EngineState) (tr : List (Nat × Stimulus)) (h : FlagInv s) :
    FlagInv (runTrace s tr) := by
  rw [runTrace]
  induction tr generalizing s with
  | nil => exact h
  | cons p rest ih => exact ih _ (FlagInv_stepStimulus s p h)

theorem FlagInv_initEngineState (r : TaskLocalStateRun) (ms0 : List Msg) (t0 : Nat) :
    FlagInv (initEngineState r ms0 t0) := by
  refine ⟨⟨?_, ?_⟩, ⟨?_, ?_⟩⟩ <;> simp [initEngineState, flagHistory, LaunchesSeparated]

/-- C1: at most one analysis per kind is in the processing state at any
instant, across every sequence of messages and trigger firings, including
firings after a forced stuck-state reset.  Conjuncts 1-2: a trigger attempt
that finds `processing = true` and not stuck launches nothing — the whole
attempt is a no-op for the respective kind; conjunct 3: along every run
from an initialized engine state (any message trace, any completion
outcomes, any timer firings, any horizon), the flag-transition history of
each kind never holds two launches without an intervening clear, so a
second launch of a kind can only happen after the previous holder of the
flag released it (completion `finally`) or was forcibly reset. -/
theorem single_flight_per_kind :
    (∀ s : EngineState, s.memory.processing = true →
      jsElapsed s.now s.memory.lastProcessingStartTime ≤ STUCK_THRESHOLD →
      processMetaMemory s = s) ∧
    (∀ s : EngineState, s.cognition.processing = true →
      jsElapsed s.now s.cognition.lastProcessingStartTime ≤ STUCK_THRESHOLD →
      processMetaCognition s = s) ∧
    (∀ (r : TaskLocalStateRun) (ms0 : List Msg) (t0 : Nat)
        (tr : List (Nat × Stimulus)) (horizon : Nat),
      LaunchesSeparated (flagHistory Kind.memory
        (runTraceTo (initEngineState r ms0 t0) tr horizon).flagLog) ∧
      LaunchesSeparated (flagHistory Kind.cognition
        (runTraceTo (initEngineState r ms0 t0) tr horizon).flagLog)) := by
  refine ⟨?_, ?_, ?_⟩
  · intro s hp hel
    have hsc : stuckCheckMemory s = (s, false) := by
      simp only [stuckCheckMemory, hp, if_true, if_neg (not_lt.mpr hel)]
    simp only [processMetaMemory, hsc]
    split <;> rfl
  · intro s hp hel
    have hsc : stuckCheckCognition s = (s, false) := by
      simp only [stuckCheckCognition, hp, if_true, if_neg (not_lt.mpr hel)]
    simp only [processMetaCognition, hsc]
    rfl
  · intro r ms0 t0 tr horizon
    have h : FlagInv (runTraceTo (initEngineState r ms0 t0) tr horizon) := by
      rw [runTraceTo]
      exact FlagInv_advanceTo _ _ (FlagInv_runTrace _ _ (FlagInv_initEngineState r ms0 t0))
    exact ⟨h.1.1, h.2.1⟩

/-- Witness for C1 at a concrete input: right after a launch the flag is
set and young, and the next trigger attempt changes nothing at all. -/
theorem single_flight_per_kind_witness :
    (launchMemory memOnlyEngine).memory.processing = true ∧
    jsElapsed (launchMemory memOnlyEngine).now
      (launchMemory memOnlyEngine).memory.lastProcessingStartTime ≤ STUCK_THRESHOLD ∧
    processMetaMemory (launchMemory memOnlyEngine) = launchMemory memOnlyEngine :=
  ⟨by decide, by decide, single_flight_per_kind.1 _ (by decide) (by decide)⟩

/-! ## The event-log invariant (for the correlation/ordering claim) -/

theorem startsSeen_append (seen : List (Nat × Kind)) (l1 l2 : List MetaEvent) :
    startsSeen seen (l1 ++ l2) = startsSeen (startsSeen seen l1) l2 := by
  induction l1 generalizing seen with
  | nil => rfl
  | cons a l ih =>
    by_cases ha : a.isStart
    · simp [startsSeen, ha, ih]
    · simp [startsSeen, ha, ih]

theorem mem_startsSeen_of_mem_seen (seen : List (Nat × Kind)) (l : List MetaEvent)
    (p : Nat × Kind) (h : p ∈ seen) : p ∈ startsSeen seen l := by
  induction l generalizing seen with
  | nil => exact h
  | cons a l ih =>
    by_cases ha : a.isStart
    · simp only [startsSeen, ha, if_true]
      exact ih _ (List.mem_cons_of_mem _ h)
    · simp only [startsSeen, ha]
      rw [if_neg (by simp [ha])]
      exact ih _ h

theorem completesMatched_append (seen : List (Nat × Kind)) (l : List MetaEvent) (e : MetaEvent) :
    completesMatched seen (l ++ [e]) =
      (completesMatched seen l &&
        (e.isStart || decide ((e.eventId, e.kind) ∈ startsSeen seen l))) := by
  induction l generalizing seen with
  | nil =>
    by_cases he : e.isStart
    · simp [completesMatched, startsSeen, he]
    · simp [completesMatched, startsSeen, he]
  | cons a l ih =>
    by_cases ha : a.isStart
    · simp [completesMatched, startsSeen, ha, ih]
    · simp only [List.cons_append, completesMatched, ha]
      rw [if_neg (by simp [ha]), if_neg (by simp [ha])]
      rw [List.append_eq, ih]
      simp only [startsSeen, ha, Bool.false_eq_true, if_false, Bool.and_assoc]

/-- Everything the correlation and ordering claim needs, as one inductive
invariant over reachable engine states. -/
structure GoodState (s : EngineState) : Prop where
  eventsBeforeNow : ∀ e ∈ s.eventLog, e.timestamp ≤ s.now
  idsFresh : ∀ e ∈ s.eventLog, e.eventId < s.nextEventId
  chrono : List.Chain' (fun a b => a.timestamp ≤ b.timestamp) s.eventLog
  startNodup : ((s.eventLog.filter (fun e => e.isStart)).map (fun e => e.eventId)).Nodup
  oneCompletePerId : List.Pairwise
    (fun a b => a.isStart = true ∨ b.isStart = true ∨ a.eventId ≠ b.eventId) s.eventLog
  matched : completesMatched [] s.eventLog = true
  pendingFresh : ∀ f ∈ s.pendingOps, f.eventId < s.nextEventId
  pendingHasStart : ∀ f ∈ s.pendingOps, (f.eventId, f.kind) ∈ startsSeen [] s.eventLog
  pendingNoComplete : ∀ f ∈ s.pendingOps, ∀ e ∈ s.eventLog, e.isStart = false →
    e.eventId ≠ f.eventId
  pendingNodup : (s.pendingOps.map (fun f => f.eventId)).Nodup

/-- Transport: a step that leaves the event log, the id counter and the
pending set untouched and does not move the clock backwards preserves the
invariant. -/
theorem GoodState_congr {s s' : EngineState} (h : GoodState s)
    (hlog : s'.eventLog = s.eventLog)
    (hnid : s'.nextEventId = s.nextEventId) (hp : s'.pendingOps = s.pendingOps)
    (hnow : s.now ≤ s'.now) : GoodState s' := by
  refine ⟨?_, ?_, ?_, ?_, ?_, ?_, ?_, ?_, ?_, ?_⟩
  · rw [hlog]
    intro e he
    exact le_trans (h.eventsBeforeNow e he) hnow
  · rw [hlog, hnid]
    exact h.idsFresh
  · rw [hlog]
    exact h.chrono
  · rw [hlog]
    exact h.startNodup
  · rw [hlog]
    exact h.oneCompletePerId
  · rw [hlog]
    exact h.matched
  · rw [hp, hnid]
    exact h.pendingFresh
  · rw [hp, hlog]
    exact h.pendingHasStart
  · rw [hp, hlog]
    exact h.pendingNoComplete
  · rw [hp]
    exact h.pendingNodup

theorem mem_of_getLast?_eq {α : Type _} {l : List α} {a : α}
    (h : l.getLast? = some a) : a ∈ l := by
  rcases List.mem_getLast?_eq_getLast (Option.mem_def.mpr h) with ⟨hne, heq⟩
  rw [heq]
  exact List.getLast_mem hne

/-- Pushing a start event with a fresh id and registering its in-flight
operation preserves the invariant. -/
theorem GoodState_launch (k : Kind) (s s' : EngineState)
    (hlog : s'.eventLog = s.eventLog ++ [⟨k, true, s.nextEventId, s.now⟩])
    (hnid : s'.nextEventId = s.nextEventId + 1)
    (hp : s'.pendingOps = s.pendingOps ++ [⟨k, s.nextEventId⟩])
    (hnow : s'.now = s.now) (h : GoodState s) : GoodState s' := by
  refine ⟨?_, ?_, ?_, ?_, ?_, ?_, ?_, ?_, ?_, ?_⟩
  · rw [hlog, hnow]
    intro e he
    rcases List.mem_append.mp he with h1 | h1
    · exact h.eventsBeforeNow e h1
    · rw [List.mem_singleton.mp h1]
  · rw [hlog, hnid]
    intro e he
    rcases List.mem_append.mp he with h1 | h1
    · exact Nat.lt_succ_of_lt (h.idsFresh e h1)
    · rw [List.mem_singleton.mp h1]
      exact Nat.lt_succ_self _
  · rw [hlog]
    refine List.chain'_append.mpr ⟨h.chrono, List.chain'_singleton _, ?_⟩
    intro x hx y hy
    simp only [List.head?_cons, Option.mem_def, Option.some.injEq] at hy
    rw [← hy]
    exact h.eventsBeforeNow x (mem_of_getLast?_eq (Option.mem_def.mp hx))
  · rw [hlog, List.filter_append, List.map_append]
    have hfil : List.filter (fun e => e.isStart)
        [(⟨k, true, s.nextEventId, s.now⟩ : MetaEvent)] =
        [(⟨k, true, s.nextEventId, s.now⟩ : MetaEvent)] := rfl
    rw [hfil]
    refine List.Nodup.append h.startNodup (by simp) ?_
    intro a ha
    have ha' : a < s.nextEventId := by
      rcases List.mem_map.mp ha with ⟨e, he, heq⟩
      rw [← heq]
      exact h.idsFresh e (List.mem_of_mem_filter he)
    simp only [List.map_cons, List.map_nil, List.mem_singleton]
    intro hcon
    rw [hcon] at ha'
    exact absurd ha' (lt_irrefl _)
  · rw [hlog]
    refine List.pairwise_append.mpr ⟨h.oneCompletePerId, List.pairwise_singleton _ _, ?_⟩
    intro a _ b hb
    rw [List.mem_singleton.mp hb]
    exact Or.inr (Or.inl rfl)
  · rw [hlog, completesMatched_append]
    simp [h.matched]
  · rw [hp, hnid]
    intro f hf
    rcases List.mem_append.mp hf with h1 | h1
    · exact Nat.lt_succ_of_lt (h.pendingFresh f h1)
    · rw [List.mem_singleton.mp h1]
      exact Nat.lt_succ_self _
  · rw [hp, hlog, startsSeen_append]
    intro f hf
    rcases List.mem_append.mp hf with h1 | h1
    · simp only [startsSeen]
      exact List.mem_cons_of_mem _ (h.pendingHasStart f h1)
    · rw [List.mem_singleton.mp h1]
      simp only [startsSeen]
      exact List.mem_cons_self _ _
  · rw [hp, hlog]
    intro f hf e he hcomp
    rcases List.mem_append.mp he with h1 | h1
    · rcases List.mem_append.mp hf with h2 | h2
      · exact h.pendingNoComplete f h2 e h1 hcomp
      · rw [List.mem_singleton.mp h2]
        have hlt := h.idsFresh e h1
        intro hcon
        rw [hcon] at hlt
        exact absurd hlt (lt_irrefl _)
    · rw [List.mem_singleton.mp h1] at hcomp
      simp at hcomp
  · rw [hp, List.map_append]
    refine List.Nodup.append h.pendingNodup (by simp) ?_
    intro a ha
    have ha' : a < s.nextEventId := by
      rcases List.mem_map.mp ha with ⟨f, hf, heq⟩
      rw [← heq]
      exact h.pendingFresh f hf
    simp only [List.map_cons, List.map_nil, List.mem_singleton]
    intro hcon
    rw [hcon] at ha'
    exact absurd ha' (lt_irrefl _)

/-- Removing pending operations (without touching the log) preserves the
invariant. -/
theorem GoodState_pending_filter (p : Flight → Bool) {s s' : EngineState}
    (h : GoodState s)
    (hlog : s'.eventLog = s.eventLog) (hnid : s'.nextEventId = s.nextEventId)
    (hpend : s'.pendingOps = s.pendingOps.filter p) (hnow : s.now ≤ s'.now) :
    GoodState s' := by
  refine ⟨?_, ?_, ?_, ?_, ?_, ?_, ?_, ?_, ?_, ?_⟩
  · rw [hlog]
    intro e he
    exact le_trans (h.eventsBeforeNow e he) hnow
  · rw [hlog, hnid]
    exact h.idsFresh
  · rw [hlog]
    exact h.chrono
  · rw [hlog]
    exact h.startNodup
  · rw [hlog]
    exact h.oneCompletePerId
  · rw [hlog]
    exact h.matched
  · rw [hpend, hnid]
    intro f hf
    exact h.pendingFresh f (List.mem_of_mem_filter hf)
  · rw [hpend, hlog]
    intro f hf
    exact h.pendingHasStart f (List.mem_of_mem_filter hf)
  · rw [hpend, hlog]
    intro f hf
    exact h.pendingNoComplete f (List.mem_of_mem_filter hf)
  · rw [hpend]
    exact h.pendingNodup.sublist ((List.filter_sublist _).map _)

/-- Pushing the `AnalysisComplete` event of a pending operation and
retiring that operation preserves the invariant. -/
theorem GoodState_complete (k : Kind) (eid : Nat) {s s' : EngineState}
    (h : GoodState s)
    (hmem : (⟨k, eid⟩ : Flight) ∈ s.pendingOps)
    (hlog : s'.eventLog = s.eventLog ++ [⟨k, false, eid, s.now⟩])
    (hnid : s'.nextEventId = s.nextEventId)
    (hpend : s'.pendingOps = s.pendingOps.filter (fun f => decide (f ≠ Flight.mk k eid)))
    (hnow : s'.now = s.now) : GoodState s' := by
  refine ⟨?_, ?_, ?_, ?_, ?_, ?_, ?_, ?_, ?_, ?_⟩
  · rw [hlog, hnow]
    intro e he
    rcases List.mem_append.mp he with h1 | h1
    · exact h.eventsBeforeNow e h1
    · rw [List.mem_singleton.mp h1]
  · rw [hlog, hnid]
    intro e he
    rcases List.mem_append.mp he with h1 | h1
    · exact h.idsFresh e h1
    · rw [List.mem_singleton.mp h1]
      exact h.pendingFresh _ hmem
  · rw [hlog]
    refine List.chain'_append.mpr ⟨h.chrono, List.chain'_singleton _, ?_⟩
    intro x hx y hy
    simp only [List.head?_cons, Option.mem_def, Option.some.injEq] at hy
    rw [← hy]
    exact h.eventsBeforeNow x (mem_of_getLast?_eq (Option.mem_def.mp hx))
  · rw [hlog, List.filter_append]
    have hfil : List.filter (fun e => e.isStart)
        [(⟨k, false, eid, s.now⟩ : MetaEvent)] = [] := rfl
    rw [hfil, List.append_nil]
    exact h.startNodup
  · rw [hlog]
    refine List.pairwise_append.mpr ⟨h.oneCompletePerId, List.pairwise_singleton _ _, ?_⟩
    intro a ha b hb
    rw [List.mem_singleton.mp hb]
    by_cases hstart : a.isStart = true
    · exact Or.inl hstart
    · right
      right
      have : a.isStart = false := by
        cases hb' : a.isStart
        · rfl
        · exact absurd hb' hstart
      exact h.pendingNoComplete _ hmem a ha this
  · rw [hlog, completesMatched_append]
    have : ((⟨k, false, eid, s.now⟩ : MetaEvent).eventId,
        (⟨k, false, eid, s.now⟩ : MetaEvent).kind) ∈ startsSeen [] s.eventLog :=
      h.pendingHasStart _ hmem
    simp [h.matched, this]
  · rw [hpend, hnid]
    intro f hf
    exact h.pendingFresh f (List.mem_of_mem_filter hf)
  · rw [hpend, hlog, startsSeen_append]
    intro f hf
    have hf' := List.mem_of_mem_filter hf
    have base := h.pendingHasStart f hf'
    have : startsSeen (startsSeen [] s.eventLog) [(⟨k, false, eid, s.now⟩ : MetaEvent)] =
        startsSeen [] s.eventLog := rfl
    rw [this]
    exact base
  · rw [hpend, hlog]
    intro f hf e he hcomp
    have hf' := List.mem_of_mem_filter hf
    have hfne : f ≠ (⟨k, eid⟩ : Flight) := by
      have := List.of_mem_filter hf
      simpa using this
    rcases List.mem_append.mp he with h1 | h1
    · exact h.pendingNoComplete f hf' e h1 hcomp
    · rw [List.mem_singleton.mp h1]
      intro hcon
      have : f = (⟨k, eid⟩ : Flight) ∨ f.eventId ≠ eid := by
        by_cases hq : f.eventId = eid
        · left
          exact List.inj_on_of_nodup_map h.pendingNodup hf' hmem hq
        · exact Or.inr hq
      rcases this with hcase | hcase
      · exact hfne hcase
      · exact hcase hcon.symm
  · rw [hpend]
    exact h.pendingNodup.sublist ((List.filter_sublist _).map _)

/-- Transport for steps that keep the clock unchanged. -/
theorem GoodState_same {s s' : EngineState} (h : GoodState s)
    (hlog : s'.eventLog = s.eventLog)
    (hnid : s'.nextEventId = s.nextEventId) (hp : s'.pendingOps = s.pendingOps)
    (hnow : s'.now = s.now) : GoodState s' :=
  GoodState_congr h hlog hnid hp (le_of_eq hnow.symm)

theorem GoodState_launchMemory (s : EngineState) (h : GoodState s) :
    GoodState (launchMemory s) :=
  GoodState_launch Kind.memory s _ rfl rfl rfl rfl h

theorem GoodState_launchCognition (s : EngineState) (h : GoodState s) :
    GoodState (launchCognition s) :=
  GoodState_launch Kind.cognition s _ rfl rfl rfl rfl h

theorem GoodState_stuckCheckMemory (s : EngineState) (h : GoodState s) :
    GoodState (stuckCheckMemory s).1 := by
  simp only [stuckCheckMemory]
  split
  · split
    · exact GoodState_same h rfl rfl rfl rfl
    · exact h
  · exact h

theorem GoodState_stuckCheckCognition (s : EngineState) (h : GoodState s) :
    GoodState (stuckCheckCognition s).1 := by
  simp only [stuckCheckCognition]
  split
  · split
    · exact GoodState_same h rfl rfl rfl rfl
    · exact h
  · exact h

theorem GoodState_processMetaMemory (s : EngineState) (h : GoodState s) :
    GoodState (processMetaMemory s) := by
  have h1 : GoodState (stuckCheckMemory s).1 := GoodState_stuckCheckMemory s h
  rcases hsc : stuckCheckMemory s with ⟨s1, proceed⟩
  rw [hsc] at h1
  simp only [processMetaMemory, hsc]
  split
  · exact h
  · split
    · exact h1
    · split
      · exact h1
      · exact GoodState_launchMemory s1 h1

theorem GoodState_processMetaCognition (s : EngineState) (h : GoodState s) :
    GoodState (processMetaCognition s) := by
  have h1 : GoodState (stuckCheckCognition s).1 := GoodState_stuckCheckCognition s h
  rcases hsc : stuckCheckCognition s with ⟨s1, proceed⟩
  rw [hsc] at h1
  simp only [processMetaCognition, hsc]
  split
  · exact h1
  · split
    · exact h1
    · exact GoodState_launchCognition s1 h1

theorem GoodState_finishMemory (eid : Nat) (o : Outcome) (s : EngineState)
    (h : GoodState s) : GoodState (finishMemory eid o s) := by
  simp only [finishMemory]
  split
  case isTrue hmem =>
    cases o
    · exact GoodState_complete Kind.memory eid h hmem rfl rfl rfl rfl
    · exact GoodState_pending_filter _ h rfl rfl rfl (le_of_eq rfl)
    · exact GoodState_pending_filter _ h rfl rfl rfl (le_of_eq rfl)
  case isFalse => exact h

theorem GoodState_finishCognition (eid : Nat) (o : Outcome) (s : EngineState)
    (h : GoodState s) : GoodState (finishCognition eid o s) := by
  simp only [finishCognition]
  split
  case isTrue hmem =>
    cases o
    · exact GoodState_complete Kind.cognition eid h hmem rfl rfl rfl rfl
    · exact GoodState_pending_filter _ h rfl rfl rfl (le_of_eq rfl)
    · exact GoodState_pending_filter _ h rfl rfl rfl (le_of_eq rfl)
  case isFalse => exact h

theorem GoodState_bumpMetaMemoryTimer (s : EngineState) (h : GoodState s) :
    GoodState (bumpMetaMemoryTimer s) := by
  simp only [bumpMetaMemoryTimer]
  split
  · exact GoodState_processMetaMemory _ (GoodState_same h rfl rfl rfl rfl)
  · exact GoodState_same h rfl rfl rfl rfl

theorem GoodState_bumpMetaCognitionTimer (s : EngineState) (h : GoodState s) :
    GoodState (bumpMetaCognitionTimer s) := by
  simp only [bumpMetaCognitionTimer]
  split
  · exact h
  · split <;> (try split) <;> exact GoodState_same h rfl rfl rfl rfl

theorem GoodState_onMessage (m : Msg) (s : EngineState) (h : GoodState s) :
    GoodState (onMessage m s) := by
  simp only [onMessage]
  split
  · split
    · exact GoodState_bumpMetaCognitionTimer _
        (GoodState_bumpMetaMemoryTimer _ (GoodState_same h rfl rfl rfl rfl))
    · exact GoodState_bumpMetaMemoryTimer _ (GoodState_same h rfl rfl rfl rfl)
  · split
    · exact GoodState_bumpMetaCognitionTimer _ (GoodState_same h rfl rfl rfl rfl)
    · exact GoodState_same h rfl rfl rfl rfl

theorem GoodState_firePeriodic (s : EngineState) (h : GoodState s) :
    GoodState (firePeriodic s) := by
  simp only [firePeriodic]
  split
  · exact GoodState_processMetaCognition _ (GoodState_same h rfl rfl rfl rfl)
  · exact GoodState_same h rfl rfl rfl rfl

theorem GoodState_applyFire (s : EngineState) (f : Nat × FireKind) (h : GoodState s) :
    GoodState (applyFire s f) := by
  rcases f with ⟨d, fk⟩
  cases fk
  · simp only [applyFire]
    split
    · refine GoodState_processMetaMemory _ (GoodState_congr h rfl rfl rfl ?_)
      exact le_max_left _ _
    · exact h
  · simp only [applyFire]
    split
    · refine GoodState_processMetaCognition _ (GoodState_congr h rfl rfl rfl ?_)
      exact le_max_left _ _
    · exact h
  · refine GoodState_firePeriodic _ (GoodState_congr h rfl rfl rfl ?_)
    exact le_max_left _ _

theorem GoodState_advanceTo (s : EngineState) (t : Nat) (h : GoodState s) :
    GoodState (advanceTo s t) := by
  rw [advanceTo]
  have hfold : GoodState ((dueList s t).foldl applyFire s) := by
    generalize dueList s t = fires
    induction fires generalizing s with
    | nil => exact h
    | cons f rest ih => exact ih _ (GoodState_applyFire s f h)
  refine GoodState_congr hfold rfl rfl rfl ?_
  exact le_max_left _ _

theorem GoodState_stepStimulus (s : EngineState) (p : Nat × Stimulus) (h : GoodState s) :
    GoodState (stepStimulus s p) := by
  rcases p with ⟨t, stim⟩
  cases stim
  · exact GoodState_onMessage _ _ (GoodState_advanceTo s t h)
  · exact GoodState_finishMemory _ _ _ (GoodState_advanceTo s t h)
  · exact GoodState_finishCognition _ _ _ (GoodState_advanceTo s t h)

theorem GoodState_runTrace (s : EngineState) (tr : List (Nat × Stimulus)) (h : GoodState s) :
    GoodState (runTrace s tr) := by
  rw [runTrace]
  induction tr generalizing s with
  | nil => exact h
  | cons p rest ih => exact ih _ (GoodState_stepStimulus s p h)

theorem GoodState_initEngineState (r : TaskLocalStateRun) (ms0 : List Msg) (t0 : Nat) :
    GoodState (initEngineState r ms0 t0) := by
  refine ⟨?_, ?_, ?_, ?_, ?_, ?_, ?_, ?_, ?_, ?_⟩ <;>
    simp [initEngineState, completesMatched]

/-- C7: every `AnalysisStart` event carries a freshly generated correlation
id, and the meta events delivered to the consumer appear in non-decreasing
timestamp order because the merge queue is drained strictly FIFO.  For
every initialized engine state and every stimulus trace (messages,
completions with any outcome, timer firings up to any horizon), the event
log — the merge queue in FIFO push order, which is exactly the delivery
order — satisfies: (1) the correlation ids of all start events are
pairwise distinct (each launch consumes a fresh id); (2) any two complete
events have distinct ids, so an id appears on at most one complete event;
(3) every complete event is preceded in the log by a start event with the
same id and kind; (4) timestamps are non-decreasing along the log. -/
theorem correlation_ids_and_fifo_order :
    ∀ (r : TaskLocalStateRun) (ms0 : List Msg) (t0 : Nat)
      (tr : List (Nat × Stimulus)) (horizon : Nat),
      (((runTraceTo (initEngineState r ms0 t0) tr horizon).eventLog.filter
          (fun e => e.isStart)).map (fun e => e.eventId)).Nodup ∧
      List.Pairwise (fun a b => a.isStart = true ∨ b.isStart = true ∨ a.eventId ≠ b.eventId)
        (runTraceTo (initEngineState r ms0 t0) tr horizon).eventLog ∧
      completesMatched [] (runTraceTo (initEngineState r ms0 t0) tr horizon).eventLog = true ∧
      List.Chain' (fun a b => a.timestamp ≤ b.timestamp)
        (runTraceTo (initEngineState r ms0 t0) tr horizon).eventLog := by
  intro r ms0 t0 tr horizon
  have h : GoodState (runTraceTo (initEngineState r ms0 t0) tr horizon) := by
    rw [runTraceTo]
    exact GoodState_advanceTo _ _ (GoodState_runTrace _ _ (GoodState_initEngineState r ms0 t0))
  exact ⟨h.startNodup, h.oneCompletePerId, h.matched, h.chrono⟩

end TaskEngine
